import Mathlib

/-!
Verification of the finds library (alfred.py, recipes.py) of the
financial-data-science repository against its specification.

The embedding follows the Python source closely:

* finds/alfred.py: the FRED/ALFRED data plumbing (Alfred.construct_series,
  the url formatters, the request fallback logic, select_bai_ng, factors_em)
* finds/recipes.py: impute_em assertion layer and the Interest bond-math
  functions together with the Jorion chapter-5 bootstrap self-check.

Dates are modelled as natural numbers in YYYYMMDD form.  The Python code
compares realtime columns as fixed-format YYYY-MM-DD strings against
_int2date(vintage); lexicographic order on that fixed-width format agrees
with numeric order on the YYYYMMDD integers, so Nat order is a faithful
model of those comparisons.  Observation values are modelled as Option Rat:
pd.to_numeric with coercion maps a non-numeric raw string to NaN, which is
modelled by none; a numeric decimal string is modelled by some q.
-/

namespace FinDS

namespace Alfred

/-- A row of the dataframe returned by the FRED series/observations api,
after the two conversions at the top of Alfred.construct_series
(pd.to_numeric on the value column with coercion of non-numeric strings
to NaN, and pd.to_datetime on the date column). -/
structure FredObs where
  date : ℕ
  realtime_start : ℕ
  realtime_end : ℕ
  value : Option ℚ
deriving DecidableEq

/-- Embedding of df.dropna(): after the numeric coercions the only column
that can hold NaN is the value column, so dropna keeps exactly the rows
whose value parsed to a number. -/
def dropna (l : List FredObs) : List FredObs :=
  l.filter fun o => o.value.isSome

/-- Embedding of the conditional vintage filter of Alfred.construct_series:

  if np.any(df[realtime_start] <= _int2date(vintage)):
      df = df[df[realtime_start] <= _int2date(vintage)]

Note the guard: when no row has realtime_start at or before the vintage,
the dataframe is left unfiltered. -/
def vintage_filter (l : List FredObs) (vintage : ℕ) : List FredObs :=
  if l.any (fun o => decide (o.realtime_start ≤ vintage)) then
    l.filter fun o => decide (o.realtime_start ≤ vintage)
  else l

/-- Sort key of df.sort_values(by=[date, realtime_start]): lexicographic
order on the pair (date, realtime_start). -/
def obsLe (a b : FredObs) : Prop :=
  a.date < b.date ∨ (a.date = b.date ∧ a.realtime_start ≤ b.realtime_start)

instance : DecidableRel obsLe := fun a b => by
  unfold obsLe; infer_instance

instance : IsTotal FredObs obsLe where
  total a b := by
    unfold obsLe
    rcases Nat.lt_trichotomy a.date b.date with h | h | h
    · exact Or.inl (Or.inl h)
    · rcases Nat.le_total a.realtime_start b.realtime_start with h₂ | h₂
      · exact Or.inl (Or.inr ⟨h, h₂⟩)
      · exact Or.inr (Or.inr ⟨h.symm, h₂⟩)
    · exact Or.inr (Or.inl h)

instance : IsTrans FredObs obsLe where
  trans a b c hab hbc := by
    unfold obsLe at *
    rcases hab with h | ⟨h, h₂⟩ <;> rcases hbc with h₃ | ⟨h₃, h₄⟩
    · exact Or.inl (h.trans h₃)
    · exact Or.inl (h₃ ▸ h)
    · exact Or.inl (h ▸ h₃)
    · exact Or.inr ⟨h.trans h₃, h₂.trans h₄⟩

/-- Embedding of df.sort_values(by=[date, realtime_start]).  numpy sorting
only guarantees the result is ordered by the key; insertion sort realizes
the same guarantee and is kernel-evaluable. -/
def sort_values (l : List FredObs) : List FredObs :=
  List.insertionSort obsLe l

/-- Sort key of df.set_index(date).sort_index(). -/
def dateLe (a b : FredObs) : Prop := a.date ≤ b.date

instance : DecidableRel dateLe := fun a b => by
  unfold dateLe; infer_instance

instance : IsTotal FredObs dateLe where
  total a b := Nat.le_total a.date b.date

instance : IsTrans FredObs dateLe where
  trans _ _ _ hab hbc := Nat.le_trans hab hbc

/-- Embedding of df.set_index(date).sort_index(). -/
def sort_index (l : List FredObs) : List FredObs :=
  List.insertionSort dateLe l

/-- Embedding of df.drop_duplicates(date, keep=last): a row survives
exactly when no later row carries the same date. -/
def drop_duplicates_keep_last : List FredObs → List FredObs
  | [] => []
  | o :: rest =>
    if rest.any (fun p => decide (p.date = o.date)) then
      drop_duplicates_keep_last rest
    else o :: drop_duplicates_keep_last rest

/-- Embedding of df.drop_duplicates(date, keep=first): a row survives
exactly when no earlier row carries the same date. -/
def drop_duplicates_keep_first : List FredObs → List FredObs
  | [] => []
  | o :: rest =>
    o :: drop_duplicates_keep_first (rest.filter fun p => decide (p.date ≠ o.date))
termination_by l => l.length
decreasing_by
  exact Nat.lt_succ_of_le (List.length_filter_le _ _)

/-- Embedding of df.groupby(date).cumcount(): each row is paired with the
number of earlier rows having the same date. -/
def cumcount (l : List FredObs) : List (FredObs × ℕ) :=
  l.enum.map fun p =>
    (p.2, ((l.take p.1).filter fun q => decide (q.date = p.2.date)).length)

/-- Embedding of the nonzero integer release branch of
Alfred.construct_series: keep the rows whose per-date cumulative count
plus one equals the requested release, then drop duplicate dates keeping
the first. -/
def nth_release (release : ℕ) (l : List FredObs) : List FredObs :=
  drop_duplicates_keep_first
    (((cumcount l).filter fun p => decide (p.2 + 1 = release)).map Prod.fst)

/-- Embedding of Alfred.construct_series for an integer release and the
default (empty) freq argument, in which case no date offset is applied.
The stages mirror the source line by line: dropna, the conditional
vintage filter, sort by (date, realtime_start), the release selection
(keep last per date when release = 0, else the given release number),
sort by date, and the final inclusive window
start <= date <= min(end, vintage).  The second pd.to_numeric call on the
value column is a no-op after dropna and is not repeated here. -/
def construct_series (observations : List FredObs) (vintage : ℕ)
    (release : ℕ) (start : ℕ) (end_ : ℕ) : List FredObs :=
  let df := dropna observations
  let df := vintage_filter df vintage
  let df := sort_values df
  let df := if release = 0 then drop_duplicates_keep_last df
            else nth_release release df
  let df := sort_index df
  df.filter fun o => decide (o.date ≤ min end_ vintage ∧ start ≤ o.date)

theorem snd_mem_of_mem_enumFrom {p : ℕ × FredObs} :
    ∀ {n : ℕ} {l : List FredObs}, p ∈ List.enumFrom n l → p.2 ∈ l := by
  intro n l
  induction l generalizing n with
  | nil => intro h; cases h
  | cons a t ih =>
    intro h
    rw [List.enumFrom_cons] at h
    rcases List.mem_cons.mp h with rfl | h
    · exact List.mem_cons_self _ _
    · exact List.mem_cons_of_mem _ (ih h)

theorem fst_mem_of_mem_cumcount {l : List FredObs} {q : FredObs × ℕ}
    (h : q ∈ cumcount l) : q.1 ∈ l := by
  unfold cumcount at h
  rcases List.mem_map.mp h with ⟨p, hp, rfl⟩
  exact snd_mem_of_mem_enumFrom hp

theorem dropna_subset (l : List FredObs) : dropna l ⊆ l :=
  (List.filter_sublist l).subset

theorem isSome_of_mem_dropna {l : List FredObs} {o : FredObs}
    (h : o ∈ dropna l) : o.value.isSome :=
  (List.mem_filter.mp h).2

theorem vintage_filter_subset (l : List FredObs) (v : ℕ) :
    vintage_filter l v ⊆ l := by
  unfold vintage_filter
  split
  · exact (List.filter_sublist l).subset
  · exact fun _ h => h

theorem vintage_filter_le {l : List FredObs} {v : ℕ}
    (h : ∃ o ∈ l, o.realtime_start ≤ v) :
    ∀ o ∈ vintage_filter l v, o.realtime_start ≤ v := by
  intro o ho
  unfold vintage_filter at ho
  rcases h with ⟨w, hw, hwv⟩
  rw [if_pos (List.any_eq_true.mpr ⟨w, hw, decide_eq_true hwv⟩)] at ho
  exact of_decide_eq_true (List.mem_filter.mp ho).2

theorem mem_sort_values {l : List FredObs} {o : FredObs} :
    o ∈ sort_values l ↔ o ∈ l :=
  (List.perm_insertionSort obsLe l).mem_iff

theorem mem_sort_index {l : List FredObs} {o : FredObs} :
    o ∈ sort_index l ↔ o ∈ l :=
  (List.perm_insertionSort dateLe l).mem_iff

theorem keep_last_subset : ∀ l : List FredObs,
    drop_duplicates_keep_last l ⊆ l := by
  intro l
  induction l with
  | nil => exact fun _ h => h
  | cons a t ih =>
    unfold drop_duplicates_keep_last
    split
    · exact fun x hx => List.mem_cons_of_mem _ (ih hx)
    · intro x hx
      rcases List.mem_cons.mp hx with rfl | hx
      · exact List.mem_cons_self _ _
      · exact List.mem_cons_of_mem _ (ih hx)

theorem keep_first_subset : ∀ l : List FredObs,
    drop_duplicates_keep_first l ⊆ l := by
  intro l
  induction l using drop_duplicates_keep_first.induct with
  | case1 =>
    unfold drop_duplicates_keep_first
    exact fun _ h => h
  | case2 o rest ih =>
    unfold drop_duplicates_keep_first
    intro x hx
    rcases List.mem_cons.mp hx with rfl | hx
    · exact List.mem_cons_self _ _
    · exact List.mem_cons_of_mem _ ((List.filter_sublist rest).subset (ih hx))

theorem keep_last_pairwise : ∀ l : List FredObs,
    (drop_duplicates_keep_last l).Pairwise fun a b => a.date ≠ b.date := by
  intro l
  induction l with
  | nil => exact List.Pairwise.nil
  | cons a t ih =>
    unfold drop_duplicates_keep_last
    by_cases h : (t.any fun p => decide (p.date = a.date)) = true
    · rw [if_pos h]
      exact ih
    · rw [if_neg h]
      refine List.pairwise_cons.mpr ⟨?_, ih⟩
      intro b hb hdate
      have hb' : b ∈ t := keep_last_subset t hb
      exact h (List.any_eq_true.mpr ⟨b, hb', decide_eq_true hdate.symm⟩)

theorem keep_first_pairwise : ∀ l : List FredObs,
    (drop_duplicates_keep_first l).Pairwise fun a b => a.date ≠ b.date := by
  intro l
  induction l using drop_duplicates_keep_first.induct with
  | case1 =>
    unfold drop_duplicates_keep_first
    exact List.Pairwise.nil
  | case2 o rest ih =>
    unfold drop_duplicates_keep_first
    refine List.pairwise_cons.mpr ⟨?_, ih⟩
    intro b hb
    have hb' : b ∈ rest.filter fun p => decide (p.date ≠ o.date) :=
      keep_first_subset _ hb
    have hbo := of_decide_eq_true (List.mem_filter.mp hb').2
    exact fun hdate => hbo hdate.symm

theorem nth_release_subset (r : ℕ) (l : List FredObs) :
    nth_release r l ⊆ l := by
  intro x hx
  unfold nth_release at hx
  have hx' := keep_first_subset _ hx
  rcases List.mem_map.mp hx' with ⟨q, hq, rfl⟩
  exact fst_mem_of_mem_cumcount (List.mem_of_mem_filter hq)

theorem nth_release_pairwise (r : ℕ) (l : List FredObs) :
    (nth_release r l).Pairwise fun a b => a.date ≠ b.date :=
  keep_first_pairwise _

/-- The stages of construct_series, written out without let bindings. -/
theorem construct_series_eq (observations : List FredObs)
    (vintage release start end_ : ℕ) :
    construct_series observations vintage release start end_ =
      (sort_index
        (if release = 0 then
          drop_duplicates_keep_last
            (sort_values (vintage_filter (dropna observations) vintage))
        else
          nth_release release
            (sort_values (vintage_filter (dropna observations) vintage)))).filter
        fun o => decide (o.date ≤ min end_ vintage ∧ start ≤ o.date) := rfl

/-- Every row of the construct_series output comes from the vintage filter
stage applied to the dropna stage. -/
theorem construct_series_subset (observations : List FredObs)
    (vintage release start end_ : ℕ) :
    construct_series observations vintage release start end_ ⊆
      vintage_filter (dropna observations) vintage := by
  intro o ho
  unfold construct_series at ho
  have h1 := List.mem_of_mem_filter ho
  have h2 := mem_sort_index.mp h1
  by_cases hr : release = 0
  · rw [if_pos hr] at h2
    exact mem_sort_values.mp (keep_last_subset _ h2)
  · rw [if_neg hr] at h2
    exact mem_sort_values.mp (nth_release_subset _ _ h2)

/-- C6: For every observations DataFrame, Alfred.construct_series coerces
non-numeric raw value strings to NaN (modelled as none), drops those rows,
and the returned series contains no NaN values: every returned row has a
parsed numeric value. -/
theorem construct_series_no_nan (observations : List FredObs)
    (vintage release start end_ : ℕ) :
    ∀ o ∈ construct_series observations vintage release start end_,
      o.value.isSome := by
  intro o ho
  have h := construct_series_subset observations vintage release start end_ ho
  exact isSome_of_mem_dropna (vintage_filter_subset _ _ h)

/-- Witness for the no-NaN theorem at a concrete observations list. -/
theorem construct_series_no_nan_witness :
    (⟨20200101, 20200108, 20210615, some 1⟩ : FredObs) ∈
      construct_series [⟨20200101, 20200108, 20210615, some 1⟩]
        99991231 0 0 99991231
    ∧ ((⟨20200101, 20200108, 20210615, some 1⟩ : FredObs)).value.isSome :=
  ⟨by decide,
   construct_series_no_nan [⟨20200101, 20200108, 20210615, some 1⟩]
     99991231 0 0 99991231 _ (by decide)⟩

/-- C4: For every observations DataFrame, the series returned by
Alfred.construct_series has a date index with unique keys sorted in strictly
increasing order, and every index date lies in the inclusive range
from start to min(end, vintage). -/
theorem construct_series_sorted_unique_window (observations : List FredObs)
    (vintage release start end_ : ℕ) :
    ((construct_series observations vintage release start end_).Pairwise
      fun a b => a.date < b.date)
    ∧ ∀ o ∈ construct_series observations vintage release start end_,
        start ≤ o.date ∧ o.date ≤ min end_ vintage := by
  have hne : ∀ d : List FredObs, d.Pairwise
      (fun a b : FredObs => a.date ≠ b.date) →
      ((sort_index d).filter fun o =>
        decide (o.date ≤ min end_ vintage ∧ start ≤ o.date)).Pairwise
        fun a b : FredObs => a.date < b.date := by
    intro d hd
    have hsorted : (sort_index d).Pairwise dateLe :=
      List.sorted_insertionSort dateLe d
    have hdist : (sort_index d).Pairwise fun a b : FredObs => a.date ≠ b.date :=
      ((List.perm_insertionSort dateLe d).pairwise_iff
        fun {_ _} h => Ne.symm h).mpr hd
    have hboth := hsorted.and hdist
    have hlt : (sort_index d).Pairwise fun a b : FredObs => a.date < b.date :=
      hboth.imp fun h => Nat.lt_of_le_of_ne h.1 h.2
    exact hlt.filter _
  constructor
  · rw [construct_series_eq]
    by_cases hr : release = 0
    · rw [if_pos hr]
      exact hne _ (keep_last_pairwise _)
    · rw [if_neg hr]
      exact hne _ (nth_release_pairwise _ _)
  · intro o ho
    rw [construct_series_eq] at ho
    have := of_decide_eq_true (List.mem_filter.mp ho).2
    exact ⟨this.2, this.1⟩

/-- C1 counterexample: with a single observation dated 2020-01-01 whose
realtime_start 2021-06-15 lies after the vintage 2021-01-01, the guard
np.any(realtime_start less-or-equal vintage) is false, the vintage filter is
skipped, and the observation is kept even though its realtime_start is
after the vintage. -/
theorem construct_series_vintage_counterexample :
    ∃ o ∈ construct_series
        [⟨20200101, 20210615, 20210615, some 1⟩] 20210101 0 0 99991231,
      20210101 < o.realtime_start := by
  decide

/-- C1 amended: whenever at least one row that survives dropna has
realtime_start at or before the vintage (so that the guard fires), every
observation kept in the series returned by Alfred.construct_series has
realtime_start at or before the vintage. -/
theorem construct_series_vintage_bound (observations : List FredObs)
    (vintage release start end_ : ℕ)
    (h : ∃ o ∈ dropna observations, o.realtime_start ≤ vintage) :
    ∀ o ∈ construct_series observations vintage release start end_,
      o.realtime_start ≤ vintage := by
  intro o ho
  exact vintage_filter_le h o
    (construct_series_subset observations vintage release start end_ ho)

/-- Witness for the amended C1 theorem at a concrete input. -/
theorem construct_series_vintage_bound_witness :
    (∃ o ∈ dropna [⟨20200101, 20200108, 20210615, some 1⟩],
      o.realtime_start ≤ 20210101)
    ∧ ∀ o ∈ construct_series
        [⟨20200101, 20200108, 20210615, some 1⟩] 20210101 0 0 99991231,
        o.realtime_start ≤ 20210101 :=
  ⟨by decide,
   construct_series_vintage_bound _ 20210101 0 0 99991231 (by decide)⟩

/-! Url formatters.  Alfred._alfred_url and Alfred._fred_url are Python
format strings; the embeddings below concatenate exactly the same
characters around the interpolated arguments. -/

/-- Embedding of the Alfred._alfred_url format string
https://api.stlouisfed.org/fred/{api}?series_id={series_id}
&realtime_start={start}&realtime_end={end}&api_key={api_key}&file_type=json -/
def _alfred_url (api series_id start end_ api_key : String) : String :=
  "https://api.stlouisfed.org/fred/" ++ api ++ "?series_id=" ++ series_id ++
    "&realtime_start=" ++ start ++ "&realtime_end=" ++ end_ ++
    "&api_key=" ++ api_key ++ "&file_type=json"

/-- Embedding of the Alfred._fred_url format string
https://api.stlouisfed.org/fred/{api}?series_id={series_id}
&api_key={api_key}&file_type=json -/
def _fred_url (api series_id api_key : String) : String :=
  "https://api.stlouisfed.org/fred/" ++ api ++ "?series_id=" ++ series_id ++
    "&api_key=" ++ api_key ++ "&file_type=json"

/-- Everything after the first occurrence of sep, or the empty list when
sep does not occur. -/
def afterChar (sep : Char) : List Char → List Char
  | [] => []
  | c :: cs => if c = sep then cs else afterChar sep cs

/-- Everything before the first occurrence of sep. -/
def upToChar (sep : Char) : List Char → List Char
  | [] => []
  | c :: cs => if c = sep then [] else c :: upToChar sep cs

/-- Split a character list on a separator character. -/
def splitOnChar (sep : Char) : List Char → List (List Char)
  | [] => [[]]
  | c :: cs =>
    match splitOnChar sep cs with
    | [] => [[c]]
    | p :: ps => if c = sep then [] :: p :: ps else (c :: p) :: ps

/-- A key=value piece of a query string, as a pair of strings. -/
def parsePiece (piece : List Char) : String × String :=
  (String.mk (upToChar '=' piece), String.mk (afterChar '=' piece))

/-- The query-string parameters of a url: the key=value pairs separated by
ampersands after the first question mark. -/
def queryParams (url : String) : List (String × String) :=
  (splitOnChar '&' (afterChar '?' url.data)).map parsePiece

theorem afterChar_append {sep : Char} :
    ∀ {l₁ l₂ : List Char}, sep ∉ l₁ →
      afterChar sep (l₁ ++ l₂) = afterChar sep l₂ := by
  intro l₁
  induction l₁ with
  | nil => intro l₂ _; rfl
  | cons c cs ih =>
    intro l₂ h
    have hc : ¬c = sep := fun hc => h (hc ▸ List.mem_cons_self c cs)
    simp only [List.cons_append, afterChar, if_neg hc]
    exact ih fun hm => h (List.mem_cons_of_mem c hm)

theorem afterChar_cons_self (sep : Char) (l : List Char) :
    afterChar sep (sep :: l) = l := by
  simp [afterChar]

theorem upToChar_append {sep : Char} :
    ∀ {l₁ l₂ : List Char}, sep ∉ l₁ →
      upToChar sep (l₁ ++ sep :: l₂) = l₁ := by
  intro l₁
  induction l₁ with
  | nil => intro l₂ _; simp [upToChar]
  | cons c cs ih =>
    intro l₂ h
    have hc : ¬c = sep := fun hc => h (hc ▸ List.mem_cons_self c cs)
    simp only [List.cons_append, upToChar, if_neg hc]
    exact congrArg (c :: ·) (ih fun hm => h (List.mem_cons_of_mem c hm))

theorem splitOnChar_ne_nil (sep : Char) : ∀ l, splitOnChar sep l ≠ [] := by
  intro l
  cases l with
  | nil => simp [splitOnChar]
  | cons c cs =>
    unfold splitOnChar
    cases h : splitOnChar sep cs with
    | nil => simp
    | cons p ps =>
      by_cases hc : c = sep <;> simp [hc]

theorem splitOnChar_cons_self (sep : Char) (l : List Char) :
    splitOnChar sep (sep :: l) = [] :: splitOnChar sep l := by
  cases h : splitOnChar sep l with
  | nil => exact absurd h (splitOnChar_ne_nil sep l)
  | cons p ps => simp [splitOnChar, h]

theorem splitOnChar_append {sep : Char} :
    ∀ {l₁ l₂ : List Char} {p : List Char} {ps : List (List Char)},
      sep ∉ l₁ → splitOnChar sep l₂ = p :: ps →
      splitOnChar sep (l₁ ++ l₂) = (l₁ ++ p) :: ps := by
  intro l₁
  induction l₁ with
  | nil => intro l₂ p ps _ h; simpa using h
  | cons c cs ih =>
    intro l₂ p ps h hsplit
    have hc : ¬c = sep := fun hc => h (hc ▸ List.mem_cons_self c cs)
    have hrec := ih (fun hm => h (List.mem_cons_of_mem c hm)) hsplit
    simp only [List.cons_append]
    unfold splitOnChar
    rw [hrec]
    simp [hc]

theorem splitOnChar_no_sep {sep : Char} :
    ∀ {l : List Char}, sep ∉ l → splitOnChar sep l = [l] := by
  intro l
  induction l with
  | nil => intro _; rfl
  | cons c cs ih =>
    intro h
    have hc : ¬c = sep := fun hc => h (hc ▸ List.mem_cons_self c cs)
    unfold splitOnChar
    rw [ih fun hm => h (List.mem_cons_of_mem c hm)]
    simp [hc]

/-- Parse a query string shaped key=value&rest into its first parameter. -/
theorem parseQ_cons (kl : List Char) (v : String) (rest : List Char)
    (hka : '&' ∉ kl) (hke : '=' ∉ kl) (hv : '&' ∉ v.data) :
    (splitOnChar '&' (kl ++ '=' :: (v.data ++ '&' :: rest))).map parsePiece =
      (String.mk kl, v) ::
        (splitOnChar '&' rest).map parsePiece := by
  have hno : '&' ∉ kl ++ '=' :: v.data := by
    intro hm
    rcases List.mem_append.mp hm with hm | hm
    · exact hka hm
    · rcases List.mem_cons.mp hm with hm | hm
      · exact absurd hm.symm (by decide)
      · exact hv hm
  have hassoc : kl ++ '=' :: (v.data ++ '&' :: rest) =
      (kl ++ '=' :: v.data) ++ '&' :: rest := by simp
  rw [hassoc,
    splitOnChar_append hno (splitOnChar_cons_self '&' rest), List.map_cons]
  congr 1
  unfold parsePiece
  have h1 : upToChar '=' ((kl ++ '=' :: v.data) ++ []) = kl := by
    rw [List.append_nil]
    exact upToChar_append hke
  have h2 : afterChar '=' ((kl ++ '=' :: v.data) ++ []) = v.data := by
    rw [List.append_nil, afterChar_append hke, afterChar_cons_self]
  rw [h1, h2]

/-- Parse the final key=value piece of a query string. -/
theorem parseQ_last (kl : List Char) (v : String)
    (hka : '&' ∉ kl) (hke : '=' ∉ kl) (hv : '&' ∉ v.data) :
    (splitOnChar '&' (kl ++ '=' :: v.data)).map parsePiece =
      [(String.mk kl, v)] := by
  have hno : '&' ∉ kl ++ '=' :: v.data := by
    intro hm
    rcases List.mem_append.mp hm with hm | hm
    · exact hka hm
    · rcases List.mem_cons.mp hm with hm | hm
      · exact absurd hm.symm (by decide)
      · exact hv hm
  rw [splitOnChar_no_sep hno, List.map_cons, List.map_nil]
  unfold parsePiece
  rw [upToChar_append hke, afterChar_append hke, afterChar_cons_self]

/-- C7: The query urls built by the Alfred._alfred_url formatter contain
exactly the query-string parameters series_id, realtime_start,
realtime_end, api_key and file_type=json, in that order and with the
interpolated values, and the Alfred._fred_url urls contain exactly
series_id, api_key and file_type=json.  The hypotheses say that the
interpolated values contain no separator characters, as is the case for
the series ids, dates and api keys the client interpolates. -/
theorem url_query_params (api sid st en key : String)
    (hapi : '?' ∉ api.data) (hsid : '&' ∉ sid.data) (hst : '&' ∉ st.data)
    (hen : '&' ∉ en.data) (hkey : '&' ∉ key.data) :
    queryParams (_alfred_url api sid st en key) =
      [("series_id", sid), ("realtime_start", st), ("realtime_end", en),
       ("api_key", key), ("file_type", "json")]
    ∧ queryParams (_fred_url api sid key) =
      [("series_id", sid), ("api_key", key), ("file_type", "json")] := by
  constructor
  · have hurl : (_alfred_url api sid st en key).data =
        ("https://api.stlouisfed.org/fred/".data ++ api.data) ++ '?' ::
          ("series_id".data ++ '=' :: (sid.data ++ '&' ::
           ("realtime_start".data ++ '=' :: (st.data ++ '&' ::
            ("realtime_end".data ++ '=' :: (en.data ++ '&' ::
             ("api_key".data ++ '=' :: (key.data ++ '&' ::
              ("file_type".data ++ '=' :: "json".data))))))))) := by
      simp [_alfred_url, String.data_append, List.append_assoc]
    have hpre : '?' ∉ "https://api.stlouisfed.org/fred/".data ++ api.data := by
      intro hm
      rcases List.mem_append.mp hm with hm | hm
      · exact absurd hm (by decide)
      · exact hapi hm
    unfold queryParams
    rw [hurl, afterChar_append hpre, afterChar_cons_self,
      parseQ_cons _ sid _ (by decide) (by decide) hsid,
      parseQ_cons _ st _ (by decide) (by decide) hst,
      parseQ_cons _ en _ (by decide) (by decide) hen,
      parseQ_cons _ key _ (by decide) (by decide) hkey,
      parseQ_last _ "json" (by decide) (by decide) (by decide)]
  · have hurl : (_fred_url api sid key).data =
        ("https://api.stlouisfed.org/fred/".data ++ api.data) ++ '?' ::
          ("series_id".data ++ '=' :: (sid.data ++ '&' ::
           ("api_key".data ++ '=' :: (key.data ++ '&' ::
            ("file_type".data ++ '=' :: "json".data))))) := by
      simp [_fred_url, String.data_append, List.append_assoc]
    have hpre : '?' ∉ "https://api.stlouisfed.org/fred/".data ++ api.data := by
      intro hm
      rcases List.mem_append.mp hm with hm | hm
      · exact absurd hm (by decide)
      · exact hapi hm
    unfold queryParams
    rw [hurl, afterChar_append hpre, afterChar_cons_self,
      parseQ_cons _ sid _ (by decide) (by decide) hsid,
      parseQ_cons _ key _ (by decide) (by decide) hkey,
      parseQ_last _ "json" (by decide) (by decide) (by decide)]

/-- Witness for the url parameter theorem at concrete argument strings. -/
theorem url_query_params_witness :
    ('?' ∉ "series".data) ∧
    queryParams (_alfred_url "series" "GNPCA" "1776-07-04" "9999-12-31" "k") =
      [("series_id", "GNPCA"), ("realtime_start", "1776-07-04"),
       ("realtime_end", "9999-12-31"), ("api_key", "k"),
       ("file_type", "json")] :=
  ⟨by decide,
   (url_query_params "series" "GNPCA" "1776-07-04" "9999-12-31" "k"
      (by decide) (by decide) (by decide) (by decide) (by decide)).1⟩

/-! Request layer.  The HTTP transport is requests_get from finds.database,
which belongs to the repository but is not under src; per the spec a failed
HTTP request returns None.  It is modelled by an oracle returning an Option
of the parsed JSON body. -/

/-- One row of the seriess array of a series api response; the payload
beyond the id is irrelevant to the claims and kept opaque. -/
structure SeriesMeta where
  id : String
deriving DecidableEq

/-- Parsed body of a series api response. -/
structure SeriesJson where
  seriess : List SeriesMeta
deriving DecidableEq

/-- Parsed body of a series/observations api response: the envelope
realtime window and the observations array. -/
structure ObsJson where
  realtime_start : ℕ
  realtime_end : ℕ
  observations : List FredObs
deriving DecidableEq

/-- Modelled from the spec: requests_get (finds.database, a repository
module not under src) returns None for a failed HTTP request; a getter maps
each url to the parsed JSON body of a successful response, or none. -/
structure HttpGetter where
  series : String → Option SeriesJson
  observations : String → Option ObsJson

/-- Embedding of the _int2date helper: int date YYYYMMDD to the dash
separated FRED api string format. -/
def _int2date (d : ℕ) : String :=
  let s := toString d
  String.mk (s.data.take 4) ++ "-" ++ String.mk ((s.data.drop 4).take 2) ++
    "-" ++ String.mk ((s.data.drop 6).take 2)

/-- The persistent state of an Alfred object that the request layer uses:
credentials, default period window, and the memory cache. -/
structure CacheEntry where
  series : List SeriesMeta
  observations : List FredObs
deriving DecidableEq

structure AlfredClient where
  api_key : String
  _start : ℕ
  _end : ℕ
  cache : List (String × CacheEntry)

/-- First url tried by Alfred.request_series (the ALFRED vintage url). -/
def request_series_url1 (self : AlfredClient) (series_id api_key : String)
    (start end_ : ℕ) : String :=
  _alfred_url "series" series_id
    (_int2date (if start = 0 then self._start else start))
    (_int2date (if end_ = 0 then self._end else end_))
    (if api_key = "" then self.api_key else api_key)

/-- Fallback url of Alfred.request_series (the plain FRED url). -/
def request_series_url2 (self : AlfredClient) (series_id api_key : String) :
    String :=
  _fred_url "series" series_id (if api_key = "" then self.api_key else api_key)

/-- Urls tried by Alfred.request_series_observations. -/
def request_obs_url1 (self : AlfredClient) (series_id api_key : String)
    (start end_ : ℕ) : String :=
  _alfred_url "series/observations" series_id
    (_int2date (if start = 0 then self._start else start))
    (_int2date (if end_ = 0 then self._end else end_))
    (if api_key = "" then self.api_key else api_key)

def request_obs_url2 (self : AlfredClient) (series_id api_key : String) :
    String :=
  _fred_url "series/observations" series_id
    (if api_key = "" then self.api_key else api_key)

/-- Embedding of Alfred.request_series: try the ALFRED url; on a failed
request retry with the FRED url; when both fail return an empty
dataframe. -/
def request_series (get : HttpGetter) (self : AlfredClient)
    (series_id api_key : String) (start end_ : ℕ) : List SeriesMeta :=
  match get.series (request_series_url1 self series_id api_key start end_) with
  | some r => r.seriess
  | none =>
    match get.series (request_series_url2 self series_id api_key) with
    | some r => r.seriess
    | none => []

/-- Embedding of the alfred_mode backfill of request_series_observations:
rows whose realtime window equals the response envelope have realtime_start
replaced by their observation date. -/
def alfred_backfill (r : ObsJson) : List FredObs :=
  r.observations.map fun o =>
    if o.realtime_start = r.realtime_start ∧ o.realtime_end = r.realtime_end
    then { o with realtime_start := o.date }
    else o

/-- Embedding of Alfred.request_series_observations: try the ALFRED url; on
a failed request retry with the FRED url; when both fail return an empty
dataframe; otherwise parse the observations array, backfilling
realtime_start in alfred mode. -/
def request_series_observations (get : HttpGetter) (self : AlfredClient)
    (series_id api_key : String) (start end_ : ℕ) (alfred_mode : Bool) :
    List FredObs :=
  match get.observations (request_obs_url1 self series_id api_key start end_) with
  | some r => if alfred_mode then alfred_backfill r else r.observations
  | none =>
    match get.observations (request_obs_url2 self series_id api_key) with
    | some r => if alfred_mode then alfred_backfill r else r.observations
    | none => []

/-- Embedding of Alfred.get_series for a single series id: when the series
metadata request fails or is empty nothing is cached and the returned count
is 0; otherwise the observations are requested in alfred mode, cached, and
their number returned. -/
def get_series (get : HttpGetter) (self : AlfredClient) (series_id : String)
    (start end_ : ℕ) : AlfredClient × ℕ :=
  let series := request_series get self series_id "" start end_
  if series = [] then (self, 0)
  else
    let obs := request_series_observations get self series_id "" start end_ true
    ({ self with cache := (series_id, ⟨series, obs⟩) :: self.cache }, obs.length)

/-- Embedding of Alfred.__call__ for one series id, with the default
transform arguments (tcode 1 applies no operation to the already sorted
series) and the default empty freq (no date offsetting).  The guard
reproduces the source: when the id is not cached and get_series (called
with its default period arguments) reports an empty observations
dataframe, the call returns None. -/
def call (get : HttpGetter) (self : AlfredClient) (series_id : String)
    (start end_ release vintage : ℕ) : Option (List FredObs) :=
  match self.cache.lookup series_id with
  | some entry =>
    some (construct_series entry.observations vintage release
      (if start = 0 then self._start else start)
      (if end_ = 0 then self._end else end_))
  | none =>
    let sn := get_series get self series_id 0 0
    if sn.2 = 0 then none
    else
      match sn.1.cache.lookup series_id with
      | some entry =>
        some (construct_series entry.observations vintage release
          (if start = 0 then self._start else start)
          (if end_ = 0 then self._end else end_))
      | none => none

/-- C3: a failed HTTP request returns None and the caller falls back to the
alternate endpoint.  When the ALFRED url request yields none,
request_series and request_series_observations retry with the FRED url and
return the parse of its response; when both requests fail they return an
empty dataframe; and when both series metadata requests fail,
Alfred.__call__ for an uncached series id returns None. -/
theorem request_fallback (get : HttpGetter) (self : AlfredClient)
    (sid api_key : String) (start end_ release vintage : ℕ)
    (hcache : self.cache.lookup sid = none) :
    (∀ r, get.series (request_series_url1 self sid api_key start end_) = none →
      get.series (request_series_url2 self sid api_key) = some r →
      request_series get self sid api_key start end_ = r.seriess)
    ∧ (get.series (request_series_url1 self sid api_key start end_) = none →
      get.series (request_series_url2 self sid api_key) = none →
      request_series get self sid api_key start end_ = [])
    ∧ (∀ r b, get.observations (request_obs_url1 self sid api_key start end_) = none →
      get.observations (request_obs_url2 self sid api_key) = some r →
      request_series_observations get self sid api_key start end_ b =
        if b then alfred_backfill r else r.observations)
    ∧ (∀ b, get.observations (request_obs_url1 self sid api_key start end_) = none →
      get.observations (request_obs_url2 self sid api_key) = none →
      request_series_observations get self sid api_key start end_ b = [])
    ∧ (get.series (request_series_url1 self sid "" 0 0) = none →
      get.series (request_series_url2 self sid "") = none →
      call get self sid start end_ release vintage = none) := by
  refine ⟨?_, ?_, ?_, ?_, ?_⟩
  · intro r h1 h2
    unfold request_series
    rw [h1, h2]
  · intro h1 h2
    unfold request_series
    rw [h1, h2]
  · intro r b h1 h2
    unfold request_series_observations
    rw [h1, h2]
  · intro b h1 h2
    unfold request_series_observations
    rw [h1, h2]
  · intro h1 h2
    have hreq : request_series get self sid "" 0 0 = [] := by
      unfold request_series
      rw [h1, h2]
    unfold call
    rw [hcache]
    simp [get_series, hreq]

/-- Witness for the request fallback theorem: a getter whose requests all
fail yields the empty dataframes and a None call result, and a getter that
only answers the FRED fallback url yields that response. -/
theorem request_fallback_witness :
    (request_series ⟨fun _ => none, fun _ => none⟩ ⟨"k", 17760704, 99991231, []⟩
        "GNP" "" 0 0 = [])
    ∧ (request_series_observations ⟨fun _ => none, fun _ => none⟩
        ⟨"k", 17760704, 99991231, []⟩ "GNP" "" 0 0 true = [])
    ∧ (call ⟨fun _ => none, fun _ => none⟩ ⟨"k", 17760704, 99991231, []⟩
        "GNP" 0 0 0 99991231 = none)
    ∧ (request_series
        ⟨fun u => if u = request_series_url2 ⟨"k", 17760704, 99991231, []⟩ "GNP" ""
                  then some ⟨[⟨"GNP"⟩]⟩ else none,
          fun _ => none⟩
        ⟨"k", 17760704, 99991231, []⟩ "GNP" "" 0 0 = [⟨"GNP"⟩])
    ∧ (request_series_observations
        ⟨fun _ => none,
          fun u => if u = request_obs_url2 ⟨"k", 17760704, 99991231, []⟩ "GNP" ""
                   then some ⟨20200101, 20200108, []⟩ else none⟩
        ⟨"k", 17760704, 99991231, []⟩ "GNP" "" 0 0 true =
        alfred_backfill ⟨20200101, 20200108, []⟩) := by
  refine ⟨?_, ?_, ?_, ?_, ?_⟩
  · exact (request_fallback ⟨fun _ => none, fun _ => none⟩
      ⟨"k", 17760704, 99991231, []⟩ "GNP" "" 0 0 0 99991231 rfl).2.1 rfl rfl
  · exact (request_fallback ⟨fun _ => none, fun _ => none⟩
      ⟨"k", 17760704, 99991231, []⟩ "GNP" "" 0 0 0 99991231 rfl).2.2.2.1 true rfl rfl
  · exact (request_fallback ⟨fun _ => none, fun _ => none⟩
      ⟨"k", 17760704, 99991231, []⟩ "GNP" "" 0 0 0 99991231 rfl).2.2.2.2 rfl rfl
  · exact (request_fallback _ ⟨"k", 17760704, 99991231, []⟩
      "GNP" "" 0 0 0 99991231 rfl).1 ⟨[⟨"GNP"⟩]⟩ (by decide) (by decide)
  · simpa using (request_fallback _ ⟨"k", 17760704, 99991231, []⟩
      "GNP" "" 0 0 0 99991231 rfl).2.2.1 ⟨20200101, 20200108, []⟩ true
      (by decide) (by decide)

end Alfred

/-! Factor-model utilities of finds/alfred.py (module level): factors_em and
select_bai_ng, together with the assertion layer of impute_em from
finds/recipes.py.  Panels are T by N matrices; entries of the raw input are
Option Real with none modelling NaN.  The SVD itself is a numpy library
call and is abstracted: factors_em takes the truncated reconstruction step
as a function argument, select_bai_ng takes the singular value list. -/

/-- Dense real matrix with T rows (observations) and N columns (variables). -/
def RMat (T N : ℕ) : Type := Fin T → Fin N → ℝ

/-- Panel with possibly missing entries; none models NaN. -/
def OMat (T N : ℕ) : Type := Fin T → Fin N → Option ℝ

/-- Embedding of np.isnan on the panel. -/
def isnan {T N : ℕ} (X : OMat T N) (i : Fin T) (j : Fin N) : Bool :=
  (X i j).isNone

/-- Embedding of np.any(np.all(Y, axis=1)): some row is entirely true. -/
def any_all_rows {T N : ℕ} (Y : Fin T → Fin N → Bool) : Bool :=
  (List.finRange T).any fun i => (List.finRange N).all fun j => Y i j

/-- Embedding of np.any(np.all(Y, axis=0)): some column is entirely true. -/
def any_all_cols {T N : ℕ} (Y : Fin T → Fin N → Bool) : Bool :=
  (List.finRange N).any fun j => (List.finRange T).all fun i => Y i j

/-- The two assert conditions at the top of factors_em: no row and no
column of the panel may be entirely missing.  The function is true exactly
when both asserts pass. -/
def em_asserts_ok {T N : ℕ} (X : OMat T N) : Bool :=
  !any_all_rows (isnan X) && !any_all_cols (isnan X)

/-- Embedding of np.hstack((np.ones((T,1)), X)) as performed by impute_em
when add_intercept is true: a leading column of ones. -/
def add_intercept {T N : ℕ} (X : OMat T N) : OMat T (N + 1) := fun i j =>
  Fin.cases (some 1) (fun j2 => X i j2) j

/-- The two assert conditions of impute_em with its default add_intercept:
the same row and column checks applied to the intercept-augmented panel. -/
def impute_em_asserts_ok {T N : ℕ} (X : OMat T N) : Bool :=
  em_asserts_ok (add_intercept X)

theorem em_asserts_ok_true_iff {T N : ℕ} (X : OMat T N) :
    em_asserts_ok X = true ↔
      (¬∃ i, ∀ j, (X i j).isNone = true) ∧ (¬∃ j, ∀ i, (X i j).isNone = true) := by
  simp [em_asserts_ok, any_all_rows, any_all_cols, isnan,
    List.any_eq_true, List.all_eq_true, List.mem_finRange]

theorem em_asserts_ok_false_iff {T N : ℕ} (X : OMat T N) :
    em_asserts_ok X = false ↔
      (∃ i, ∀ j, (X i j).isNone = true) ∨ (∃ j, ∀ i, (X i j).isNone = true) := by
  rw [← Bool.not_eq_true, em_asserts_ok_true_iff]
  tauto

/-- C9: factors_em and impute_em raise AssertionError if and only if some
row or some column of the (intercept-augmented, for impute_em) input is
entirely missing, and under the precondition that every row and every
column of the respective input contains at least one observed value,
neither assertion fires. -/
theorem assertion_conditions {T N : ℕ} (X : OMat T N) :
    ((em_asserts_ok X = false ↔
        (∃ i, ∀ j, (X i j).isNone = true) ∨ (∃ j, ∀ i, (X i j).isNone = true))
     ∧ (impute_em_asserts_ok X = false ↔
        (∃ i, ∀ j, (add_intercept X i j).isNone = true)
        ∨ (∃ j, ∀ i, (add_intercept X i j).isNone = true)))
    ∧ ((∀ i, ∃ j, (X i j).isSome = true) → (∀ j, ∃ i, (X i j).isSome = true) →
        em_asserts_ok X = true)
    ∧ ((∀ i, ∃ j, (add_intercept X i j).isSome = true) →
        (∀ j, ∃ i, (add_intercept X i j).isSome = true) →
        impute_em_asserts_ok X = true) := by
  have hsome : ∀ o : Option ℝ, o.isSome = true → ¬o.isNone = true := by
    intro o h hn
    rw [Option.isNone_iff_eq_none.mp hn] at h
    exact Bool.false_ne_true h
  refine ⟨⟨em_asserts_ok_false_iff X, em_asserts_ok_false_iff _⟩, ?_, ?_⟩
  · intro hrow hcol
    rw [em_asserts_ok_true_iff]
    constructor
    · rintro ⟨i, hi⟩
      rcases hrow i with ⟨j, hj⟩
      exact hsome _ hj (hi j)
    · rintro ⟨j, hj⟩
      rcases hcol j with ⟨i, hi⟩
      exact hsome _ hi (hj i)
  · intro hrow hcol
    rw [impute_em_asserts_ok, em_asserts_ok_true_iff]
    constructor
    · rintro ⟨i, hi⟩
      rcases hrow i with ⟨j, hj⟩
      exact hsome _ hj (hi j)
    · rintro ⟨j, hj⟩
      rcases hcol j with ⟨i, hi⟩
      exact hsome _ hi (hj i)

/-- Witness for the assertion theorem: a fully observed 2 by 2 panel
passes both assertion layers. -/
theorem assertion_conditions_witness :
    em_asserts_ok (fun _ _ : Fin 2 => some (1 : ℝ)) = true
    ∧ impute_em_asserts_ok (fun _ _ : Fin 2 => some (1 : ℝ)) = true :=
  ⟨(assertion_conditions _).2.1 (by decide) (by decide),
   (assertion_conditions (fun _ _ : Fin 2 => some (1 : ℝ))).2.2
     (fun i => ⟨0, by simp [add_intercept]⟩)
     (fun j => ⟨0, by
        refine Fin.cases ?_ ?_ j <;> simp [add_intercept]⟩)⟩

/-- A column that contains at least one missing entry; the source collects
these indices as missing_cols and only ever writes into those columns. -/
def missing_col {T N : ℕ} (X : OMat T N) (j : Fin N) : Bool :=
  (List.finRange T).any fun i => (X i j).isNone

/-- Mean of the observed entries of column j, as pandas Series.mean
computes it (NaN entries are skipped). -/
noncomputable def colObservedMean {T N : ℕ} (X : OMat T N) (j : Fin N) : ℝ :=
  (∑ i, (X i j).getD 0) /
    ((Finset.univ.filter fun i : Fin T => (X i j).isSome).card : ℝ)

/-- The initial fill of factors_em: in each column with missing values the
missing entries are replaced by the mean of the observed entries of that
column; observed entries are kept. -/
noncomputable def initFill {T N : ℕ} (X : OMat T N) : RMat T N := fun i j =>
  if missing_col X j && isnan X i j then colObservedMean X j
  else (X i j).getD 0

/-- Column means of the filled panel, as Z.mean(). -/
noncomputable def colMean {T N : ℕ} (Z : RMat T N) (j : Fin N) : ℝ :=
  (∑ i, Z i j) / (T : ℝ)

/-- Column standard deviations of the filled panel, as Z.std(): the pandas
default is the sample standard deviation with denominator T - 1. -/
noncomputable def colStd {T N : ℕ} (Z : RMat T N) (j : Fin N) : ℝ :=
  Real.sqrt ((∑ i, (Z i j - colMean Z j) ^ 2) / ((T : ℝ) - 1))

/-- One iteration of the factors_em loop with the factor reconstruction
abstracted: standardize the panel, form the rank-truncated SVD
reconstruction E (the composition of np.linalg.svd, the select_bai_ng or
kmax choice of rank, and the truncated product, abstracted as Efun),
overwrite the missing entries of the columns in missing_cols with the
corresponding entries of E, and undo the standardization. -/
noncomputable def emStep {T N : ℕ} (Efun : RMat T N → RMat T N)
    (X : OMat T N) (Z : RMat T N) : RMat T N :=
  let mean := colMean Z
  let std := colStd Z
  let Zs : RMat T N := fun i j => (Z i j - mean j) / std j
  let E := Efun Zs
  let Zs2 : RMat T N := fun i j =>
    if missing_col X j && isnan X i j then E i j else Zs i j
  fun i j => Zs2 i j * std j + mean j

/-- Frobenius norm, as np.linalg.norm of a matrix. -/
noncomputable def frobNorm {T N : ℕ} (Z : RMat T N) : ℝ :=
  Real.sqrt (∑ i, ∑ j, Z i j ^ 2)

/-- The squared relative change between successive panels that the loop
compares against tol:  (norm(Z - old_Z) / norm(Z)) ** 2. -/
noncomputable def emDelta {T N : ℕ} (oldZ Z : RMat T N) : ℝ :=
  (frobNorm (fun i j => Z i j - oldZ i j) / frobNorm Z) ^ 2

open Classical in
/-- The for n_iter in range(max_iter) loop of factors_em with its break:
each pass applies one emStep; when the squared relative change falls below
tol the loop breaks.  The second component counts the number of loop body
executions. -/
noncomputable def emLoop {T N : ℕ} (Efun : RMat T N → RMat T N)
    (X : OMat T N) (tol : ℝ) : ℕ → RMat T N → RMat T N × ℕ
  | 0, Z => (Z, 0)
  | n + 1, Z =>
    let Z2 := emStep Efun X Z
    if emDelta Z Z2 < tol then (Z2, 1)
    else
      let r := emLoop Efun X tol n Z2
      (r.1, r.2 + 1)

/-- Embedding of factors_em: initial mean fill followed by the EM loop
(max_iter defaults to 50 and tol to 1e-12 in the source). -/
noncomputable def factors_em {T N : ℕ} (Efun : RMat T N → RMat T N)
    (X : OMat T N) (max_iter : ℕ) (tol : ℝ) : RMat T N :=
  (emLoop Efun X tol max_iter (initFill X)).1

/-- Number of loop iterations factors_em executes. -/
noncomputable def factors_em_iters {T N : ℕ} (Efun : RMat T N → RMat T N)
    (X : OMat T N) (max_iter : ℕ) (tol : ℝ) : ℕ :=
  (emLoop Efun X tol max_iter (initFill X)).2

theorem emLoop_count_le {T N : ℕ} (Efun : RMat T N → RMat T N)
    (X : OMat T N) (tol : ℝ) :
    ∀ (n : ℕ) (Z : RMat T N), (emLoop Efun X tol n Z).2 ≤ n := by
  intro n
  induction n with
  | zero => intro Z; exact Nat.le_refl 0
  | succ n ih =>
    intro Z
    unfold emLoop
    dsimp only
    split
    · exact Nat.succ_le_succ (Nat.zero_le n)
    · exact Nat.succ_le_succ (ih _)

theorem emLoop_count_pos {T N : ℕ} (Efun : RMat T N → RMat T N)
    (X : OMat T N) (tol : ℝ) :
    ∀ (n : ℕ) (Z : RMat T N), 1 ≤ n → 1 ≤ (emLoop Efun X tol n Z).2 := by
  intro n Z hn
  match n, hn with
  | n + 1, _ =>
    unfold emLoop
    dsimp only
    split
    · exact Nat.le_refl 1
    · exact Nat.le_add_left 1 _

theorem emLoop_early_stop {T N : ℕ} (Efun : RMat T N → RMat T N)
    (X : OMat T N) (tol : ℝ) :
    ∀ (n : ℕ) (Z : RMat T N), 1 ≤ n →
      ((emLoop Efun X tol (n + 1) Z).2 = 1 ↔ emDelta Z (emStep Efun X Z) < tol) := by
  intro n Z hn
  unfold emLoop
  dsimp only
  split
  · next h => exact iff_of_true rfl h
  · next h =>
    refine iff_of_false ?_ h
    intro h1
    have := emLoop_count_pos Efun X tol n (emStep Efun X Z) hn
    omega

/-- C2: for every input panel passing the no-all-missing-row and
no-all-missing-column asserts, factors_em terminates: the EM loop is a
total function that executes at most max_iter iterations, and (for
max_iter at least 2) it stops before the second iteration exactly when the
squared relative change of the first iteration falls below tol. -/
theorem factors_em_terminates {T N : ℕ} (Efun : RMat T N → RMat T N)
    (X : OMat T N) (max_iter : ℕ) (tol : ℝ)
    (hok : em_asserts_ok X = true) :
    factors_em_iters Efun X max_iter tol ≤ max_iter
    ∧ (∀ n, 1 ≤ n →
        (factors_em_iters Efun X (n + 1) tol = 1 ↔
          emDelta (initFill X) (emStep Efun X (initFill X)) < tol)) := by
  refine ⟨emLoop_count_le Efun X tol max_iter (initFill X), ?_⟩
  intro n hn
  exact emLoop_early_stop Efun X tol n (initFill X) hn

/-- Witness for the termination theorem on a concrete fully observed
panel. -/
theorem factors_em_terminates_witness :
    factors_em_iters (fun Z => Z) (fun _ _ : Fin 2 => some (1 : ℝ)) 50 (1e-12)
      ≤ 50 :=
  (factors_em_terminates (fun Z => Z) (fun _ _ : Fin 2 => some (1 : ℝ))
    50 (1e-12) (by decide)).1

theorem colStd_eq_zero_forces {T N : ℕ} (Z : RMat T N) (j : Fin N)
    (h : colStd Z j = 0) : ∀ i, Z i j = colMean Z j := by
  intro i
  match T, Z, i with
  | 1, Z, i =>
    have hi : i = 0 := Subsingleton.elim i 0
    subst hi
    unfold colMean
    rw [Fin.sum_univ_one]
    norm_num
  | n + 2, Z, i =>
    unfold colStd at h
    have harg := Real.sqrt_eq_zero'.mp h
    have hden : (0 : ℝ) < ((n + 2 : ℕ) : ℝ) - 1 := by
      push_cast
      linarith
    have hnum : (∑ i, (Z i j - colMean Z j) ^ 2) ≤ 0 := by
      by_contra hc
      push_neg at hc
      have := div_pos hc hden
      linarith
    have hzero : (∑ i, (Z i j - colMean Z j) ^ 2) = 0 :=
      le_antisymm hnum (Finset.sum_nonneg fun i _ => sq_nonneg _)
    have := (Finset.sum_eq_zero_iff_of_nonneg
      (fun i _ => sq_nonneg (Z i j - colMean Z j))).mp hzero i (Finset.mem_univ i)
    have := sq_eq_zero_iff.mp this
    linarith

theorem emStep_preserves_observed {T N : ℕ} (Efun : RMat T N → RMat T N)
    (X : OMat T N) (Z : RMat T N) (i : Fin T) (j : Fin N)
    (hobs : (X i j).isNone = false) :
    emStep Efun X Z i j = Z i j := by
  unfold emStep
  simp only [isnan, hobs, Bool.and_false, Bool.false_eq_true, if_false]
  by_cases hs : colStd Z j = 0
  · rw [hs, mul_zero, zero_add]
    exact (colStd_eq_zero_forces Z j hs i).symm
  · field_simp

theorem emLoop_preserves_observed {T N : ℕ} (Efun : RMat T N → RMat T N)
    (X : OMat T N) (tol : ℝ) (i : Fin T) (j : Fin N)
    (hobs : (X i j).isNone = false) :
    ∀ (n : ℕ) (Z : RMat T N), (emLoop Efun X tol n Z).1 i j = Z i j := by
  intro n
  induction n with
  | zero => intro Z; rfl
  | succ n ih =>
    intro Z
    unfold emLoop
    dsimp only
    split
    · exact emStep_preserves_observed Efun X Z i j hobs
    · rw [ih (emStep Efun X Z)]
      exact emStep_preserves_observed Efun X Z i j hobs

/-- C8: factors_em works on a copy of its argument and, in exact
arithmetic, every entry of X that was observed (not NaN) is unchanged in
the returned panel: the initial fill writes only missing entries, and the
standardize, impute, destandardize round trip of every iteration alters
only the originally missing entries.  The factor reconstruction Efun is
arbitrary, so the statement holds whatever rank the information criterion
selects. -/
theorem factors_em_preserves_observed {T N : ℕ} (Efun : RMat T N → RMat T N)
    (X : OMat T N) (max_iter : ℕ) (tol : ℝ)
    (hok : em_asserts_ok X = true) (i : Fin T) (j : Fin N) (v : ℝ)
    (hv : X i j = some v) :
    factors_em Efun X max_iter tol i j = v := by
  have hobs : (X i j).isNone = false := by rw [hv]; rfl
  unfold factors_em
  rw [emLoop_preserves_observed Efun X tol i j hobs max_iter (initFill X)]
  unfold initFill
  simp [isnan, hobs, hv]

/-- Witness for the observed-entry preservation theorem on a concrete
panel with one missing entry. -/
theorem factors_em_preserves_observed_witness :
    factors_em (fun Z => Z)
      (fun i j : Fin 2 => if i = 0 ∧ j = 0 then none else some 3)
      50 (1e-12) 1 1 = 3 :=
  factors_em_preserves_observed (fun Z => Z)
    (fun i j : Fin 2 => if i = 0 ∧ j = 0 then none else some 3)
    50 (1e-12) (by decide) 1 1 3 rfl

/-! select_bai_ng.  The singular values of the standardized panel are the
output of np.linalg.svd and are taken as input here; everything after the
SVD call is embedded: the penalty constants, the residual variance from
the cumulated eigenvalues, the information criterion curve, and the
np.where(...)[0][0] selection of the first strict decrease, whose
IndexError on an empty index array is modelled by the none of head?. -/

/-- The CT penalty base of select_bai_ng for p in {1, 2, 3}:
log(NT/NT1)*(NT1/NT), (NT1/NT)*log(GCT), log(GCT)/GCT.  The source indexes
CT[p-1] after asserting 0 < p; values of p outside 1..3 raise IndexError
in Python and are not used by the claims. -/
noncomputable def bai_ng_penalty (T N p : ℕ) : ℝ :=
  let NT : ℝ := (N : ℝ) * (T : ℝ)
  let NT1 : ℝ := (N : ℝ) + (T : ℝ)
  let GCT : ℝ := ((min N T : ℕ) : ℝ)
  [Real.log (NT / NT1) * (NT1 / NT),
   (NT1 / NT) * Real.log GCT,
   Real.log GCT / GCT].getD (p - 1) 0

/-- Entry k of the information criterion curve of select_bai_ng:
log(sigma_k) + k * CT, where sigma_k is the residual variance after k
principal components over the total variance, computed from the squared
singular values exactly as the roll/cumsum construction does. -/
noncomputable def bai_ng_ic (s : List ℝ) (T N p : ℕ) (k : ℕ) : ℝ :=
  let eigval := s.map fun x => x ^ 2
  let total := eigval.sum
  Real.log ((total - (eigval.take k).sum) / total) + (k : ℝ) * bai_ng_penalty T N p

open Classical in
/-- Index of the first strictly negative entry of a list, as
np.where(l < 0)[0][0] computes it; none models the IndexError raised on an
empty index array. -/
noncomputable def firstNegIdx (l : List ℝ) : Option ℕ :=
  ((l.enum.filter fun q => decide (q.2 < 0)).map Prod.fst).head?

/-- Length of the truncated information criterion curve
ic[:(kmax or GCT)], where the untruncated curve has one entry per singular
value. -/
def bai_ng_len (sLen T N kmax : ℕ) : ℕ :=
  min (if kmax = 0 then min N T else kmax) sLen

/-- Embedding of select_bai_ng given the singular values s of the
standardized T by N panel: build the (truncated) information criterion
curve, form the adjacent differences ic[:-1] - ic[1:], and return the
index of the first strict decrease. -/
noncomputable def select_bai_ng (s : List ℝ) (T N kmax p : ℕ) : Option ℕ :=
  let ic := (List.range (bai_ng_len s.length T N kmax)).map (bai_ng_ic s T N p)
  let diffs := ic.zipWith (fun a b => a - b) ic.tail
  firstNegIdx diffs

open Classical in
/-- firstNegIdx with the enumeration starting at n, for the induction. -/
noncomputable def firstNegFrom (n : ℕ) (l : List ℝ) : Option ℕ :=
  (((List.enumFrom n l).filter fun q => decide (q.2 < 0)).map Prod.fst).head?

theorem firstNegIdx_eq_from (l : List ℝ) : firstNegIdx l = firstNegFrom 0 l := rfl

/-- The adjacent-difference list ic[:-1] - ic[1:] of select_bai_ng. -/
noncomputable def bai_ng_diffs (s : List ℝ) (T N kmax p : ℕ) : List ℝ :=
  ((List.range (bai_ng_len s.length T N kmax)).map (bai_ng_ic s T N p)).zipWith
    (fun a b => a - b)
    ((List.range (bai_ng_len s.length T N kmax)).map (bai_ng_ic s T N p)).tail

theorem select_bai_ng_eq (s : List ℝ) (T N kmax p : ℕ) :
    select_bai_ng s T N kmax p = firstNegFrom 0 (bai_ng_diffs s T N kmax p) := rfl

theorem bai_ng_diffs_length (s : List ℝ) (T N kmax p : ℕ) :
    (bai_ng_diffs s T N kmax p).length = bai_ng_len s.length T N kmax - 1 := by
  unfold bai_ng_diffs
  rw [List.length_zipWith, List.length_tail]
  simp only [List.length_map, List.length_range]
  omega

theorem bai_ng_diffs_getD (s : List ℝ) (T N kmax p : ℕ) (k : ℕ)
    (hk : k + 1 < bai_ng_len s.length T N kmax) :
    (bai_ng_diffs s T N kmax p).getD k 0 =
      bai_ng_ic s T N p k - bai_ng_ic s T N p (k + 1) := by
  have hk2 : k < (bai_ng_diffs s T N kmax p).length := by
    rw [bai_ng_diffs_length]; omega
  rw [List.getD_eq_getElem _ _ hk2]
  unfold bai_ng_diffs
  rw [List.getElem_zipWith, List.getElem_tail, List.getElem_map, List.getElem_map,
    List.getElem_range, List.getElem_range]

theorem firstNegFrom_spec :
    ∀ (l : List ℝ) (n : ℕ), (∃ i, i < l.length ∧ l.getD i 0 < 0) →
      ∃ i, i < l.length ∧ l.getD i 0 < 0 ∧ (∀ m < i, ¬l.getD m 0 < 0) ∧
        firstNegFrom n l = some (n + i) := by
  intro l
  induction l with
  | nil =>
    intro n h
    rcases h with ⟨i, hi, _⟩
    exact absurd hi (Nat.not_lt_zero i)
  | cons x xs ih =>
    intro n h
    by_cases hx : x < 0
    · refine ⟨0, Nat.succ_pos _, by simpa using hx, by omega, ?_⟩
      unfold firstNegFrom
      rw [List.enumFrom_cons, List.filter_cons]
      simp [hx]
    · have hxs : ∃ i, i < xs.length ∧ xs.getD i 0 < 0 := by
        rcases h with ⟨i, hi, hneg⟩
        match i, hi, hneg with
        | 0, _, hneg => exact absurd (by simpa using hneg) hx
        | i + 1, hi, hneg =>
          exact ⟨i, Nat.lt_of_succ_lt_succ hi, by simpa using hneg⟩
      rcases ih (n + 1) hxs with ⟨i, hi, hneg, hmin, heq⟩
      refine ⟨i + 1, Nat.succ_lt_succ hi, by simpa using hneg, ?_, ?_⟩
      · intro m hm
        match m, hm with
        | 0, _ => simpa using hx
        | m + 1, hm => simpa using hmin m (Nat.lt_of_succ_lt_succ hm)
      · unfold firstNegFrom at heq ⊢
        rw [List.enumFrom_cons, List.filter_cons]
        simp only [decide_eq_true_eq, hx, if_false]
        rw [show n + (i + 1) = (n + 1) + i from by omega]
        exact heq

/-- C10 counterexample: with singular values (2, 1) of a standardized
2 by 2 panel and the PCp3 penalty, the information criterion strictly
decreases at step 0 (ic 1 < ic 0), so by the claim select_bai_ng should
return the index 0 of that first decrease; instead the difference
ic 0 - ic 1 is positive, the np.where index array is empty, and the
selection raises IndexError (none), refuting the claim as stated. -/
theorem select_bai_ng_counterexample :
    (0 + 1 < bai_ng_len 2 2 2 0
      ∧ bai_ng_ic [2, 1] 2 2 3 1 < bai_ng_ic [2, 1] 2 2 3 0)
    ∧ select_bai_ng [2, 1] 2 2 0 3 = none := by
  have hlog2 : (0 : ℝ) < Real.log 2 := Real.log_pos (by norm_num)
  have hlog25 : Real.log 2 < Real.log 5 :=
    Real.log_lt_log (by norm_num) (by norm_num)
  have h0 : bai_ng_ic [2, 1] 2 2 3 0 = 0 := by
    norm_num [bai_ng_ic]
  have h1 : bai_ng_ic [2, 1] 2 2 3 1 =
      Real.log (1 / 5) + Real.log 2 / 2 := by
    simp [bai_ng_ic, bai_ng_penalty]
    norm_num
  have hkey : bai_ng_ic [2, 1] 2 2 3 1 < bai_ng_ic [2, 1] 2 2 3 0 := by
    rw [h0, h1, show (1 : ℝ) / 5 = 5⁻¹ from by norm_num, Real.log_inv]
    have hlog5 : (0 : ℝ) < Real.log 5 := Real.log_pos (by norm_num)
    linarith
  refine ⟨⟨by decide, hkey⟩, ?_⟩
  have hd : bai_ng_diffs [2, 1] 2 2 0 3 =
      [bai_ng_ic [2, 1] 2 2 3 0 - bai_ng_ic [2, 1] 2 2 3 1] := rfl
  rw [select_bai_ng_eq, hd]
  unfold firstNegFrom
  rw [List.enumFrom_cons, List.filter_cons]
  rw [decide_eq_false (show ¬bai_ng_ic [2, 1] 2 2 3 0 -
      bai_ng_ic [2, 1] 2 2 3 1 < 0 from by linarith)]
  rfl

/-- C10 amended: select_bai_ng returns the zero-based index of the first
step at which the criterion increases (ic k < ic (k+1), the first local
minimum of the ICp curve), whenever such a step exists within the
truncated range; and for a panel whose criterion curve never increases
(singular values (1, 1) with T = N = 2 and the PCp2 penalty give a flat
curve) the np.where index array is empty and select_bai_ng raises
IndexError, modelled by none, instead of returning a number of factors. -/
theorem select_bai_ng_first_local_min :
    (∀ (s : List ℝ) (T N kmax p : ℕ),
      (∃ k, k + 1 < bai_ng_len s.length T N kmax ∧
        bai_ng_ic s T N p k < bai_ng_ic s T N p (k + 1)) →
      ∃ k, select_bai_ng s T N kmax p = some k ∧
        k + 1 < bai_ng_len s.length T N kmax ∧
        bai_ng_ic s T N p k < bai_ng_ic s T N p (k + 1) ∧
        ∀ m < k, ¬bai_ng_ic s T N p m < bai_ng_ic s T N p (m + 1))
    ∧ select_bai_ng [1, 1] 2 2 0 2 = none := by
  constructor
  · rintro s T N kmax p ⟨k, hk, hinc⟩
    have hlen := bai_ng_diffs_length s T N kmax p
    have hex : ∃ i, i < (bai_ng_diffs s T N kmax p).length ∧
        (bai_ng_diffs s T N kmax p).getD i 0 < 0 :=
      ⟨k, by rw [hlen]; omega,
        by rw [bai_ng_diffs_getD s T N kmax p k hk]; linarith⟩
    obtain ⟨i, hi, hneg, hmin, heq⟩ := firstNegFrom_spec _ 0 hex
    rw [hlen] at hi
    have hiL : i + 1 < bai_ng_len s.length T N kmax := by omega
    refine ⟨i, ?_, hiL, ?_, ?_⟩
    · rw [select_bai_ng_eq, heq, Nat.zero_add]
    · rw [bai_ng_diffs_getD s T N kmax p i hiL] at hneg
      linarith
    · intro m hm
      have hmL : m + 1 < bai_ng_len s.length T N kmax := by omega
      have hnd := hmin m hm
      rw [bai_ng_diffs_getD s T N kmax p m hmL] at hnd
      intro hc
      exact hnd (by linarith)
  · have h0 : bai_ng_ic [1, 1] 2 2 2 0 = 0 := by
      norm_num [bai_ng_ic]
    have h1 : bai_ng_ic [1, 1] 2 2 2 1 = 0 := by
      simp [bai_ng_ic, bai_ng_penalty]
      norm_num
    have hd : bai_ng_diffs [1, 1] 2 2 0 2 =
        [bai_ng_ic [1, 1] 2 2 2 0 - bai_ng_ic [1, 1] 2 2 2 1] := rfl
    rw [select_bai_ng_eq, hd, h0, h1]
    unfold firstNegFrom
    rw [List.enumFrom_cons, List.filter_cons]
    rw [decide_eq_false (show ¬(0 : ℝ) - 0 < 0 from by norm_num)]
    rfl

/-- Witness for the amended select_bai_ng theorem: singular values (1, 2)
give a criterion curve that increases at step 0, and the theorem yields
the selected index. -/
theorem select_bai_ng_first_local_min_witness :
    ∃ k, select_bai_ng [1, 2] 2 2 0 2 = some k ∧
      k + 1 < bai_ng_len 2 2 2 0 ∧
      bai_ng_ic [1, 2] 2 2 2 k < bai_ng_ic [1, 2] 2 2 2 (k + 1) ∧
      ∀ m < k, ¬bai_ng_ic [1, 2] 2 2 2 m < bai_ng_ic [1, 2] 2 2 2 (m + 1) := by
  refine select_bai_ng_first_local_min.1 [1, 2] 2 2 0 2 ⟨0, by decide, ?_⟩
  have h0 : bai_ng_ic [1, 2] 2 2 2 0 = 0 := by
    norm_num [bai_ng_ic]
  have h1 : bai_ng_ic [1, 2] 2 2 2 1 = Real.log (4 / 5) + Real.log 2 := by
    simp [bai_ng_ic, bai_ng_penalty]
    norm_num
  have hlog : Real.log (4 / 5) + Real.log 2 = Real.log (8 / 5) := by
    rw [← Real.log_mul (by norm_num) (by norm_num)]
    norm_num
  rw [h0, h1, hlog]
  exact Real.log_pos (by norm_num)

/-! Bond math of finds/recipes.py: the Interest class and the Jorion
chapter 5 bootstrap self-check of the module main block.  The float
arithmetic of the source is idealized as exact real arithmetic; the n-th
root float power x ** (1/n) is the real rpow. -/

namespace Interest

/-- Embedding of Interest.present_value: flow / (1 + spot) ** n.  The
callers below always pass a natural period count n. -/
noncomputable def present_value (flow : ℝ) (n : ℕ) (spot : ℝ) : ℝ :=
  flow / (1 + spot) ^ n

/-- Embedding of Interest.discounted_cash_flow for a scalar flow, a list
of per-period spot rates and the default first = 1: the scalar flow is
broadcast to the length of spot, and the sum discounts flow at period
1 + n by the n-th spot rate. -/
noncomputable def discounted_cash_flow (flows : ℝ) (spot : List ℝ) : ℝ :=
  (spot.enum.map fun nr => present_value flows (1 + nr.1) nr.2).sum

/-- Embedding of Interest.bootstrap_rates: with n the implicit number of
coupons, per-period spot rates nominal / m, and the par price identity,
the next nominal annualized rate is ((1 + ytm/m) / pv) ** (1/n) - 1
times m. -/
noncomputable def bootstrap_rates (ytm : ℝ) (nominal : List ℝ) (m : ℕ) : ℝ :=
  let n := nominal.length + 1
  let spot := nominal.map fun r => r / (m : ℝ)
  let pv := 1 - discounted_cash_flow (ytm / (m : ℝ)) spot
  (((1 + ytm / (m : ℝ)) / pv) ^ ((n : ℝ))⁻¹ - 1) * (m : ℝ)

end Interest

/-- The yield grid of the Jorion chapter 5 self-check:
np.arange(0.0525, 0.1025, 0.0025), i.e. 0.0525 + 0.0025 k for k < 20. -/
def jorion_ytm (k : ℕ) : ℝ := 0.0525 + 0.0025 * (k : ℝ)

/-- The bootstrap loop of the recipes.py main block: starting from an
empty array, append bootstrap_rates(y, nominal=spot, m=2) for each yield
of the grid.  jorion_spot k is the spot array after k appends. -/
noncomputable def jorion_spot : ℕ → List ℝ
  | 0 => []
  | k + 1 =>
    jorion_spot k ++ [Interest.bootstrap_rates (jorion_ytm k) (jorion_spot k) 2]

/-- The k-th spot rate the loop produces. -/
noncomputable def spotRate (k : ℕ) : ℝ :=
  Interest.bootstrap_rates (jorion_ytm k) (jorion_spot k) 2

/-- The Jorion chapter 5 solution table from the source. -/
noncomputable def jorion_sol5 : List ℝ :=
  [0.0797, 0.0827, 0.0859, 0.0892, 0.0925, 0.0961, 0.0997, 0.1036, 0.1077,
   0.112]

theorem jorion_spot_eq : ∀ k, jorion_spot k = (List.range k).map spotRate := by
  intro k
  induction k with
  | zero => rfl
  | succ k ih =>
    rw [List.range_succ, List.map_append]
    unfold jorion_spot
    rw [ih]
    simp [spotRate, ih]

theorem dcf_map_range (flow : ℝ) (g : ℕ → ℝ) :
    ∀ k, Interest.discounted_cash_flow flow ((List.range k).map g) =
      ∑ j ∈ Finset.range k, flow / (1 + g j) ^ (j + 1) := by
  intro k
  induction k with
  | zero => simp [Interest.discounted_cash_flow]
  | succ k ih =>
    rw [List.range_succ, List.map_append, Finset.sum_range_succ, ← ih]
    unfold Interest.discounted_cash_flow
    rw [List.enum_append, List.map_append, List.sum_append]
    congr 1
    simp [Interest.present_value, List.enumFrom, Nat.add_comm 1 k]

/-- The running discount-factor sum behind the bootstrap: after k spot
rates, the present value of the coupon stream divides out as
flow times jorion_Q k. -/
noncomputable def jorion_Q (k : ℕ) : ℝ :=
  ∑ j ∈ Finset.range k, ((1 + spotRate j / 2) ^ (j + 1))⁻¹

theorem jorion_Q_succ (k : ℕ) :
    jorion_Q (k + 1) = jorion_Q k + ((1 + spotRate k / 2) ^ (k + 1))⁻¹ :=
  Finset.sum_range_succ _ k

theorem spotRate_formula (k : ℕ) :
    spotRate k =
      (((1 + jorion_ytm k / 2) / (1 - jorion_ytm k / 2 * jorion_Q k)) ^
        (((k + 1 : ℕ) : ℝ))⁻¹ - 1) * 2 := by
  unfold spotRate Interest.bootstrap_rates
  rw [jorion_spot_eq]
  dsimp only
  have hcast : ((2 : ℕ) : ℝ) = 2 := by norm_num
  rw [hcast]
  rw [List.map_map]
  have hmap : (fun r => r / 2) ∘ spotRate = fun j => spotRate j / 2 := rfl
  rw [hmap, dcf_map_range (jorion_ytm k / 2) (fun j => spotRate j / 2) k]
  have hsum : ∑ j ∈ Finset.range k,
      jorion_ytm k / 2 / (1 + spotRate j / 2) ^ (j + 1) =
      jorion_ytm k / 2 * jorion_Q k := by
    unfold jorion_Q
    rw [Finset.mul_sum]
    refine Finset.sum_congr rfl fun j _ => ?_
    rw [div_eq_mul_inv]
  rw [hsum, List.length_map, List.length_range]

theorem rpow_bounds {x b c : ℝ} {n : ℕ} (hn : n ≠ 0) (hb : 0 ≤ b) (hc : 0 ≤ c)
    (hx : 0 ≤ x) (h1 : b ^ n ≤ x) (h2 : x ≤ c ^ n) :
    b ≤ x ^ ((n : ℝ))⁻¹ ∧ x ^ ((n : ℝ))⁻¹ ≤ c := by
  have hroot : (x ^ ((n : ℝ))⁻¹) ^ n = x := Real.rpow_inv_natCast_pow hx hn
  have hrnn : (0 : ℝ) ≤ x ^ ((n : ℝ))⁻¹ := Real.rpow_nonneg hx _
  constructor
  · exact (pow_le_pow_iff_left₀ hb hrnn hn).mp (by rw [hroot]; exact h1)
  · exact (pow_le_pow_iff_left₀ hrnn hc hn).mp (by rw [hroot]; exact h2)

/-- Interval step for one bootstrap iteration: rational bounds on the
running sum Q give rational bounds on the next spot rate, certified by
two pure power inequalities. -/
theorem spot_step (k : ℕ) (ql qh L U : ℝ)
    (hq : ql ≤ jorion_Q k ∧ jorion_Q k ≤ qh)
    (hL : 0 ≤ 1 + L / 2) (hU : 0 ≤ 1 + U / 2)
    (hden : 0 < 1 - jorion_ytm k / 2 * qh)
    (hlow : (1 + L / 2) ^ (k + 1) ≤
      (1 + jorion_ytm k / 2) / (1 - jorion_ytm k / 2 * ql))
    (hhigh : (1 + jorion_ytm k / 2) / (1 - jorion_ytm k / 2 * qh) ≤
      (1 + U / 2) ^ (k + 1)) :
    L ≤ spotRate k ∧ spotRate k ≤ U := by
  have hy : 0 < jorion_ytm k := by
    unfold jorion_ytm
    positivity
  have ha : 0 < jorion_ytm k / 2 := by linarith
  have hQ1 : 1 - jorion_ytm k / 2 * qh ≤ 1 - jorion_ytm k / 2 * jorion_Q k := by
    nlinarith [hq.2]
  have hQ2 : 1 - jorion_ytm k / 2 * jorion_Q k ≤ 1 - jorion_ytm k / 2 * ql := by
    nlinarith [hq.1]
  have hdQ : 0 < 1 - jorion_ytm k / 2 * jorion_Q k := lt_of_lt_of_le hden hQ1
  have hdl : 0 < 1 - jorion_ytm k / 2 * ql := lt_of_lt_of_le hdQ hQ2
  have hnum : (0 : ℝ) ≤ 1 + jorion_ytm k / 2 := by linarith
  have hXlo : (1 + jorion_ytm k / 2) / (1 - jorion_ytm k / 2 * ql) ≤
      (1 + jorion_ytm k / 2) / (1 - jorion_ytm k / 2 * jorion_Q k) :=
    div_le_div_of_nonneg_left hnum hdQ hQ2
  have hXhi : (1 + jorion_ytm k / 2) / (1 - jorion_ytm k / 2 * jorion_Q k) ≤
      (1 + jorion_ytm k / 2) / (1 - jorion_ytm k / 2 * qh) :=
    div_le_div_of_nonneg_left hnum hden hQ1
  have hx : (0 : ℝ) ≤
      (1 + jorion_ytm k / 2) / (1 - jorion_ytm k / 2 * jorion_Q k) :=
    le_of_lt (div_pos (by linarith) hdQ)
  obtain ⟨hb, hc⟩ := rpow_bounds (x :=
      (1 + jorion_ytm k / 2) / (1 - jorion_ytm k / 2 * jorion_Q k))
    (n := k + 1) (Nat.succ_ne_zero k) hL hU hx
    (hlow.trans hXlo) (hXhi.trans hhigh)
  rw [spotRate_formula k]
  constructor
  · linarith [hb]
  · linarith [hc]

/-- Interval step for the running sum: bounds on Q k and on the k-th spot
rate give bounds on Q (k + 1), certified by two numeric inequalities on
the new discount term. -/
theorem Q_step (k : ℕ) (ql qh L U ql2 qh2 : ℝ)
    (hq : ql ≤ jorion_Q k ∧ jorion_Q k ≤ qh)
    (hs : L ≤ spotRate k ∧ spotRate k ≤ U)
    (hL : 0 < 1 + L / 2)
    (htl : ql2 - ql ≤ ((1 + U / 2) ^ (k + 1))⁻¹)
    (hth : ((1 + L / 2) ^ (k + 1))⁻¹ ≤ qh2 - qh) :
    ql2 ≤ jorion_Q (k + 1) ∧ jorion_Q (k + 1) ≤ qh2 := by
  have hsp : 0 < 1 + spotRate k / 2 := by linarith [hs.1]
  have h1 : ((1 + U / 2) ^ (k + 1))⁻¹ ≤ ((1 + spotRate k / 2) ^ (k + 1))⁻¹ := by
    refine inv_anti₀ (pow_pos hsp _) ?_
    exact pow_le_pow_left₀ (le_of_lt hsp) (by linarith [hs.2]) _
  have h2 : ((1 + spotRate k / 2) ^ (k + 1))⁻¹ ≤ ((1 + L / 2) ^ (k + 1))⁻¹ := by
    refine inv_anti₀ (pow_pos hL _) ?_
    exact pow_le_pow_left₀ (le_of_lt hL) (by linarith [hs.1]) _
  rw [jorion_Q_succ]
  constructor
  · linarith [hq.1, htl.trans h1]
  · linarith [hq.2, h2.trans hth]

theorem jstep0 :
    ((0.0525 : ℝ) ≤ spotRate 0 ∧ spotRate 0 ≤ (0.0525 : ℝ))
    ∧ ((0.9744214372 : ℝ) ≤ jorion_Q 1 ∧ jorion_Q 1 ≤ (0.9744214373 : ℝ)) := by
  have hq : ((0.0 : ℝ)) ≤ jorion_Q 0 ∧ jorion_Q 0 ≤ ((0.0 : ℝ)) :=
    by norm_num [jorion_Q]
  have hs : (0.0525 : ℝ) ≤ spotRate 0 ∧ spotRate 0 ≤ (0.0525 : ℝ) :=
    spot_step 0 0.0 0.0 0.0525 0.0525 hq (by norm_num)
      (by norm_num) (by norm_num [jorion_ytm]) (by norm_num [jorion_ytm])
      (by norm_num [jorion_ytm])
  exact ⟨hs, Q_step 0 0.0 0.0 0.0525 0.0525 0.9744214372
    0.9744214373 hq hs (by norm_num) (by norm_num) (by norm_num)⟩

theorem jstep1 :
    ((0.0550344177 : ℝ) ≤ spotRate 1 ∧ spotRate 1 ≤ (0.0550344178 : ℝ))
    ∧ ((1.921578041 : ℝ) ≤ jorion_Q 2 ∧ jorion_Q 2 ≤ (1.9215780413 : ℝ)) := by
  have hq : ((0.9744214372 : ℝ)) ≤ jorion_Q 1 ∧ jorion_Q 1 ≤ ((0.9744214373 : ℝ)) :=
    jstep0.2
  have hs : (0.0550344177 : ℝ) ≤ spotRate 1 ∧ spotRate 1 ≤ (0.0550344178 : ℝ) :=
    spot_step 1 0.9744214372 0.9744214373 0.0550344177 0.0550344178 hq (by norm_num)
      (by norm_num) (by norm_num [jorion_ytm]) (by norm_num [jorion_ytm])
      (by norm_num [jorion_ytm])
  exact ⟨hs, Q_step 1 0.9744214372 0.9744214373 0.0550344177 0.0550344178 1.921578041
    1.9215780413 hq hs (by norm_num) (by norm_num) (by norm_num)⟩

theorem jstep2 :
    ((0.0575967655 : ℝ) ≤ spotRate 2 ∧ spotRate 2 ≤ (0.0575967656 : ℝ))
    ∧ ((2.8399300519 : ℝ) ≤ jorion_Q 3 ∧ jorion_Q 3 ≤ (2.8399300524 : ℝ)) := by
  have hq : ((1.921578041 : ℝ)) ≤ jorion_Q 2 ∧ jorion_Q 2 ≤ ((1.9215780413 : ℝ)) :=
    jstep1.2
  have hs : (0.0575967655 : ℝ) ≤ spotRate 2 ∧ spotRate 2 ≤ (0.0575967656 : ℝ) :=
    spot_step 2 1.921578041 1.9215780413 0.0575967655 0.0575967656 hq (by norm_num)
      (by norm_num) (by norm_num [jorion_ytm]) (by norm_num [jorion_ytm])
      (by norm_num [jorion_ytm])
  exact ⟨hs, Q_step 2 1.921578041 1.9215780413 0.0575967655 0.0575967656 2.8399300519
    2.8399300524 hq hs (by norm_num) (by norm_num) (by norm_num)⟩

theorem jstep3 :
    ((0.0601911337 : ℝ) ≤ spotRate 3 ∧ spotRate 3 ≤ (0.0601911338 : ℝ))
    ∧ ((3.7280874288 : ℝ) ≤ jorion_Q 4 ∧ jorion_Q 4 ≤ (3.7280874296 : ℝ)) := by
  have hq : ((2.8399300519 : ℝ)) ≤ jorion_Q 3 ∧ jorion_Q 3 ≤ ((2.8399300524 : ℝ)) :=
    jstep2.2
  have hs : (0.0601911337 : ℝ) ≤ spotRate 3 ∧ spotRate 3 ≤ (0.0601911338 : ℝ) :=
    spot_step 3 2.8399300519 2.8399300524 0.0601911337 0.0601911338 hq (by norm_num)
      (by norm_num) (by norm_num [jorion_ytm]) (by norm_num [jorion_ytm])
      (by norm_num [jorion_ytm])
  exact ⟨hs, Q_step 3 2.8399300519 2.8399300524 0.0601911337 0.0601911338 3.7280874288
    3.7280874296 hq hs (by norm_num) (by norm_num) (by norm_num)⟩

theorem jstep4 :
    ((0.0628219586 : ℝ) ≤ spotRate 4 ∧ spotRate 4 ≤ (0.0628219587 : ℝ))
    ∧ ((4.5848120521 : ℝ) ≤ jorion_Q 5 ∧ jorion_Q 5 ≤ (4.5848120532 : ℝ)) := by
  have hq : ((3.7280874288 : ℝ)) ≤ jorion_Q 4 ∧ jorion_Q 4 ≤ ((3.7280874296 : ℝ)) :=
    jstep3.2
  have hs : (0.0628219586 : ℝ) ≤ spotRate 4 ∧ spotRate 4 ≤ (0.0628219587 : ℝ) :=
    spot_step 4 3.7280874288 3.7280874296 0.0628219586 0.0628219587 hq (by norm_num)
      (by norm_num) (by norm_num [jorion_ytm]) (by norm_num [jorion_ytm])
      (by norm_num [jorion_ytm])
  exact ⟨hs, Q_step 4 3.7280874288 3.7280874296 0.0628219586 0.0628219587 4.5848120521
    4.5848120532 hq hs (by norm_num) (by norm_num) (by norm_num)⟩

theorem jstep5 :
    ((0.0654940869 : ℝ) ≤ spotRate 5 ∧ spotRate 5 ≤ (0.065494087 : ℝ))
    ∧ ((5.4090189365 : ℝ) ≤ jorion_Q 6 ∧ jorion_Q 6 ≤ (5.4090189379 : ℝ)) := by
  have hq : ((4.5848120521 : ℝ)) ≤ jorion_Q 5 ∧ jorion_Q 5 ≤ ((4.5848120532 : ℝ)) :=
    jstep4.2
  have hs : (0.0654940869 : ℝ) ≤ spotRate 5 ∧ spotRate 5 ≤ (0.065494087 : ℝ) :=
    spot_step 5 4.5848120521 4.5848120532 0.0654940869 0.065494087 hq (by norm_num)
      (by norm_num) (by norm_num [jorion_ytm]) (by norm_num [jorion_ytm])
      (by norm_num [jorion_ytm])
  exact ⟨hs, Q_step 5 4.5848120521 4.5848120532 0.0654940869 0.065494087 5.4090189365
    5.4090189379 hq hs (by norm_num) (by norm_num) (by norm_num)⟩

theorem jstep6 :
    ((0.0682128507 : ℝ) ≤ spotRate 6 ∧ spotRate 6 ≤ (0.0682128508 : ℝ))
    ∧ ((6.1997764801 : ℝ) ≤ jorion_Q 7 ∧ jorion_Q 7 ≤ (6.1997764819 : ℝ)) := by
  have hq : ((5.4090189365 : ℝ)) ≤ jorion_Q 6 ∧ jorion_Q 6 ≤ ((5.4090189379 : ℝ)) :=
    jstep5.2
  have hs : (0.0682128507 : ℝ) ≤ spotRate 6 ∧ spotRate 6 ≤ (0.0682128508 : ℝ) :=
    spot_step 6 5.4090189365 5.4090189379 0.0682128507 0.0682128508 hq (by norm_num)
      (by norm_num) (by norm_num [jorion_ytm]) (by norm_num [jorion_ytm])
      (by norm_num [jorion_ytm])
  exact ⟨hs, Q_step 6 5.4090189365 5.4090189379 0.0682128507 0.0682128508 6.1997764801
    6.1997764819 hq hs (by norm_num) (by norm_num) (by norm_num)⟩

theorem jstep7 :
    ((0.0709841578 : ℝ) ≤ spotRate 7 ∧ spotRate 7 ≤ (0.0709841579 : ℝ))
    ∧ ((6.9563057777 : ℝ) ≤ jorion_Q 8 ∧ jorion_Q 8 ≤ (6.9563057799 : ℝ)) := by
  have hq : ((6.1997764801 : ℝ)) ≤ jorion_Q 7 ∧ jorion_Q 7 ≤ ((6.1997764819 : ℝ)) :=
    jstep6.2
  have hs : (0.0709841578 : ℝ) ≤ spotRate 7 ∧ spotRate 7 ≤ (0.0709841579 : ℝ) :=
    spot_step 7 6.1997764801 6.1997764819 0.0709841578 0.0709841579 hq (by norm_num)
      (by norm_num) (by norm_num [jorion_ytm]) (by norm_num [jorion_ytm])
      (by norm_num [jorion_ytm])
  exact ⟨hs, Q_step 7 6.1997764801 6.1997764819 0.0709841578 0.0709841579 6.9563057777
    6.9563057799 hq hs (by norm_num) (by norm_num) (by norm_num)⟩

theorem jstep8 :
    ((0.0738145991 : ℝ) ≤ spotRate 8 ∧ spotRate 8 ≤ (0.0738145992 : ℝ))
    ∧ ((7.6779790373 : ℝ) ≤ jorion_Q 9 ∧ jorion_Q 9 ≤ (7.6779790399 : ℝ)) := by
  have hq : ((6.9563057777 : ℝ)) ≤ jorion_Q 8 ∧ jorion_Q 8 ≤ ((6.9563057799 : ℝ)) :=
    jstep7.2
  have hs : (0.0738145991 : ℝ) ≤ spotRate 8 ∧ spotRate 8 ≤ (0.0738145992 : ℝ) :=
    spot_step 8 6.9563057777 6.9563057799 0.0738145991 0.0738145992 hq (by norm_num)
      (by norm_num) (by norm_num [jorion_ytm]) (by norm_num [jorion_ytm])
      (by norm_num [jorion_ytm])
  exact ⟨hs, Q_step 8 6.9563057777 6.9563057799 0.0738145991 0.0738145992 7.6779790373
    7.6779790399 hq hs (by norm_num) (by norm_num) (by norm_num)⟩

theorem jstep9 :
    ((0.0767115791 : ℝ) ≤ spotRate 9 ∧ spotRate 9 ≤ (0.0767115792 : ℝ))
    ∧ ((8.3643171441 : ℝ) ≤ jorion_Q 10 ∧ jorion_Q 10 ≤ (8.3643171471 : ℝ)) := by
  have hq : ((7.6779790373 : ℝ)) ≤ jorion_Q 9 ∧ jorion_Q 9 ≤ ((7.6779790399 : ℝ)) :=
    jstep8.2
  have hs : (0.0767115791 : ℝ) ≤ spotRate 9 ∧ spotRate 9 ≤ (0.0767115792 : ℝ) :=
    spot_step 9 7.6779790373 7.6779790399 0.0767115791 0.0767115792 hq (by norm_num)
      (by norm_num) (by norm_num [jorion_ytm]) (by norm_num [jorion_ytm])
      (by norm_num [jorion_ytm])
  exact ⟨hs, Q_step 9 7.6779790373 7.6779790399 0.0767115791 0.0767115792 8.3643171441
    8.3643171471 hq hs (by norm_num) (by norm_num) (by norm_num)⟩

theorem jstep10 :
    ((0.0796834755 : ℝ) ≤ spotRate 10 ∧ spotRate 10 ≤ (0.0796834757 : ℝ))
    ∧ ((9.0149864199 : ℝ) ≤ jorion_Q 11 ∧ jorion_Q 11 ≤ (9.0149864237 : ℝ)) := by
  have hq : ((8.3643171441 : ℝ)) ≤ jorion_Q 10 ∧ jorion_Q 10 ≤ ((8.3643171471 : ℝ)) :=
    jstep9.2
  have hs : (0.0796834755 : ℝ) ≤ spotRate 10 ∧ spotRate 10 ≤ (0.0796834757 : ℝ) :=
    spot_step 10 8.3643171441 8.3643171471 0.0796834755 0.0796834757 hq (by norm_num)
      (by norm_num) (by norm_num [jorion_ytm]) (by norm_num [jorion_ytm])
      (by norm_num [jorion_ytm])
  exact ⟨hs, Q_step 10 8.3643171441 8.3643171471 0.0796834755 0.0796834757 9.0149864199
    9.0149864237 hq hs (by norm_num) (by norm_num) (by norm_num)⟩

theorem jstep11 :
    ((0.0827398365 : ℝ) ≤ spotRate 11 ∧ spotRate 11 ≤ (0.0827398367 : ℝ))
    ∧ ((9.6297946341 : ℝ) ≤ jorion_Q 12 ∧ jorion_Q 12 ≤ (9.6297946387 : ℝ)) := by
  have hq : ((9.0149864199 : ℝ)) ≤ jorion_Q 11 ∧ jorion_Q 11 ≤ ((9.0149864237 : ℝ)) :=
    jstep10.2
  have hs : (0.0827398365 : ℝ) ≤ spotRate 11 ∧ spotRate 11 ≤ (0.0827398367 : ℝ) :=
    spot_step 11 9.0149864199 9.0149864237 0.0827398365 0.0827398367 hq (by norm_num)
      (by norm_num) (by norm_num [jorion_ytm]) (by norm_num [jorion_ytm])
      (by norm_num [jorion_ytm])
  exact ⟨hs, Q_step 11 9.0149864199 9.0149864237 0.0827398365 0.0827398367 9.6297946341
    9.6297946387 hq hs (by norm_num) (by norm_num) (by norm_num)⟩

theorem jstep12 :
    ((0.0858916264 : ℝ) ≤ spotRate 12 ∧ spotRate 12 ≤ (0.0858916266 : ℝ))
    ∧ ((10.2086863227 : ℝ) ≤ jorion_Q 13 ∧ jorion_Q 13 ≤ (10.2086863281 : ℝ)) := by
  have hq : ((9.6297946341 : ℝ)) ≤ jorion_Q 12 ∧ jorion_Q 12 ≤ ((9.6297946387 : ℝ)) :=
    jstep11.2
  have hs : (0.0858916264 : ℝ) ≤ spotRate 12 ∧ spotRate 12 ≤ (0.0858916266 : ℝ) :=
    spot_step 12 9.6297946341 9.6297946387 0.0858916264 0.0858916266 hq (by norm_num)
      (by norm_num) (by norm_num [jorion_ytm]) (by norm_num [jorion_ytm])
      (by norm_num [jorion_ytm])
  exact ⟨hs, Q_step 12 9.6297946341 9.6297946387 0.0858916264 0.0858916266 10.2086863227
    10.2086863281 hq hs (by norm_num) (by norm_num) (by norm_num)⟩

theorem jstep13 :
    ((0.089151536 : ℝ) ≤ spotRate 13 ∧ spotRate 13 ≤ (0.0891515362 : ℝ))
    ∧ ((10.7517374793 : ℝ) ≤ jorion_Q 14 ∧ jorion_Q 14 ≤ (10.7517374855 : ℝ)) := by
  have hq : ((10.2086863227 : ℝ)) ≤ jorion_Q 13 ∧ jorion_Q 13 ≤ ((10.2086863281 : ℝ)) :=
    jstep12.2
  have hs : (0.089151536 : ℝ) ≤ spotRate 13 ∧ spotRate 13 ≤ (0.0891515362 : ℝ) :=
    spot_step 13 10.2086863227 10.2086863281 0.089151536 0.0891515362 hq (by norm_num)
      (by norm_num) (by norm_num [jorion_ytm]) (by norm_num [jorion_ytm])
      (by norm_num [jorion_ytm])
  exact ⟨hs, Q_step 13 10.2086863227 10.2086863281 0.089151536 0.0891515362 10.7517374793
    10.7517374855 hq hs (by norm_num) (by norm_num) (by norm_num)⟩

theorem jstep14 :
    ((0.092534379 : ℝ) ≤ spotRate 14 ∧ spotRate 14 ≤ (0.0925343792 : ℝ))
    ∧ ((11.2591496802 : ℝ) ≤ jorion_Q 15 ∧ jorion_Q 15 ≤ (11.2591496872 : ℝ)) := by
  have hq : ((10.7517374793 : ℝ)) ≤ jorion_Q 14 ∧ jorion_Q 14 ≤ ((10.7517374855 : ℝ)) :=
    jstep13.2
  have hs : (0.092534379 : ℝ) ≤ spotRate 14 ∧ spotRate 14 ≤ (0.0925343792 : ℝ) :=
    spot_step 14 10.7517374793 10.7517374855 0.092534379 0.0925343792 hq (by norm_num)
      (by norm_num) (by norm_num [jorion_ytm]) (by norm_num [jorion_ytm])
      (by norm_num [jorion_ytm])
  exact ⟨hs, Q_step 14 10.7517374793 10.7517374855 0.092534379 0.0925343792 11.2591496802
    11.2591496872 hq hs (by norm_num) (by norm_num) (by norm_num)⟩

theorem jstep15 :
    ((0.0960576036 : ℝ) ≤ spotRate 15 ∧ spotRate 15 ≤ (0.0960576038 : ℝ))
    ∧ ((11.7312437126 : ℝ) ≤ jorion_Q 16 ∧ jorion_Q 16 ≤ (11.7312437204 : ℝ)) := by
  have hq : ((11.2591496802 : ℝ)) ≤ jorion_Q 15 ∧ jorion_Q 15 ≤ ((11.2591496872 : ℝ)) :=
    jstep14.2
  have hs : (0.0960576036 : ℝ) ≤ spotRate 15 ∧ spotRate 15 ≤ (0.0960576038 : ℝ) :=
    spot_step 15 11.2591496802 11.2591496872 0.0960576036 0.0960576038 hq (by norm_num)
      (by norm_num) (by norm_num [jorion_ytm]) (by norm_num [jorion_ytm])
      (by norm_num [jorion_ytm])
  exact ⟨hs, Q_step 15 11.2591496802 11.2591496872 0.0960576036 0.0960576038 11.7312437126
    11.7312437204 hq hs (by norm_num) (by norm_num) (by norm_num)⟩

theorem jstep16 :
    ((0.0997419642 : ℝ) ≤ spotRate 16 ∧ spotRate 16 ≤ (0.0997419644 : ℝ))
    ∧ ((12.1684527713 : ℝ) ≤ jorion_Q 17 ∧ jorion_Q 17 ≤ (12.1684527799 : ℝ)) := by
  have hq : ((11.7312437126 : ℝ)) ≤ jorion_Q 16 ∧ jorion_Q 16 ≤ ((11.7312437204 : ℝ)) :=
    jstep15.2
  have hs : (0.0997419642 : ℝ) ≤ spotRate 16 ∧ spotRate 16 ≤ (0.0997419644 : ℝ) :=
    spot_step 16 11.7312437126 11.7312437204 0.0997419642 0.0997419644 hq (by norm_num)
      (by norm_num) (by norm_num [jorion_ytm]) (by norm_num [jorion_ytm])
      (by norm_num [jorion_ytm])
  exact ⟨hs, Q_step 16 11.7312437126 11.7312437204 0.0997419642 0.0997419644 12.1684527713
    12.1684527799 hq hs (by norm_num) (by norm_num) (by norm_num)⟩

theorem jstep17 :
    ((0.1036124146 : ℝ) ≤ spotRate 17 ∧ spotRate 17 ≤ (0.1036124148 : ℝ))
    ∧ ((12.5713152942 : ℝ) ≤ jorion_Q 18 ∧ jorion_Q 18 ≤ (12.5713153036 : ℝ)) := by
  have hq : ((12.1684527713 : ℝ)) ≤ jorion_Q 17 ∧ jorion_Q 17 ≤ ((12.1684527799 : ℝ)) :=
    jstep16.2
  have hs : (0.1036124146 : ℝ) ≤ spotRate 17 ∧ spotRate 17 ≤ (0.1036124148 : ℝ) :=
    spot_step 17 12.1684527713 12.1684527799 0.1036124146 0.1036124148 hq (by norm_num)
      (by norm_num) (by norm_num [jorion_ytm]) (by norm_num [jorion_ytm])
      (by norm_num [jorion_ytm])
  exact ⟨hs, Q_step 17 12.1684527713 12.1684527799 0.1036124146 0.1036124148 12.5713152942
    12.5713153036 hq hs (by norm_num) (by norm_num) (by norm_num)⟩

theorem jstep18 :
    ((0.1076993182 : ℝ) ≤ spotRate 18 ∧ spotRate 18 ≤ (0.1076993184 : ℝ))
    ∧ ((12.9404675027 : ℝ) ≤ jorion_Q 19 ∧ jorion_Q 19 ≤ (12.9404675129 : ℝ)) := by
  have hq : ((12.5713152942 : ℝ)) ≤ jorion_Q 18 ∧ jorion_Q 18 ≤ ((12.5713153036 : ℝ)) :=
    jstep17.2
  have hs : (0.1076993182 : ℝ) ≤ spotRate 18 ∧ spotRate 18 ≤ (0.1076993184 : ℝ) :=
    spot_step 18 12.5713152942 12.5713153036 0.1076993182 0.1076993184 hq (by norm_num)
      (by norm_num) (by norm_num [jorion_ytm]) (by norm_num [jorion_ytm])
      (by norm_num [jorion_ytm])
  exact ⟨hs, Q_step 18 12.5713152942 12.5713153036 0.1076993182 0.1076993184 12.9404675027
    12.9404675129 hq hs (by norm_num) (by norm_num) (by norm_num)⟩

theorem jstep19 :
    ((0.1120401179 : ℝ) ≤ spotRate 19 ∧ spotRate 19 ≤ (0.1120401182 : ℝ))
    ∧ ((13.276635716 : ℝ) ≤ jorion_Q 20 ∧ jorion_Q 20 ≤ (13.2766357273 : ℝ)) := by
  have hq : ((12.9404675027 : ℝ)) ≤ jorion_Q 19 ∧ jorion_Q 19 ≤ ((12.9404675129 : ℝ)) :=
    jstep18.2
  have hs : (0.1120401179 : ℝ) ≤ spotRate 19 ∧ spotRate 19 ≤ (0.1120401182 : ℝ) :=
    spot_step 19 12.9404675027 12.9404675129 0.1120401179 0.1120401182 hq (by norm_num)
      (by norm_num) (by norm_num [jorion_ytm]) (by norm_num [jorion_ytm])
      (by norm_num [jorion_ytm])
  exact ⟨hs, Q_step 19 12.9404675027 12.9404675129 0.1120401179 0.1120401182 13.276635716
    13.2766357273 hq hs (by norm_num) (by norm_num) (by norm_num)⟩

/-- C5: starting from an empty list of spot rates and iteratively
appending Interest.bootstrap_rates(y, nominal=spot, m=2) for the yields
0.0525 to 0.10 in steps of 0.0025, the last ten spot rates produced equal
the Jorion chapter 5 solution table, each within absolute tolerance
0.0001 (in exact real arithmetic). -/
theorem jorion_bootstrap_matches (i : ℕ) (hi : i < 10) :
    |(jorion_spot 20).getD (10 + i) 0 - jorion_sol5.getD i 0| ≤ 0.0001 := by
  have hget : ∀ n, n < 20 → (jorion_spot 20).getD n 0 = spotRate n := by
    intro n hn
    rw [jorion_spot_eq]
    have hlen : n < ((List.range 20).map spotRate).length := by
      simpa using hn
    rw [List.getD_eq_getElem _ _ hlen, List.getElem_map, List.getElem_range]
  interval_cases i
  · rw [hget (10 + 0) (by norm_num), abs_le]
    have h := jstep10.1
    refine ⟨?_, ?_⟩
    · show -(0.0001 : ℝ) ≤ spotRate 10 - 0.0797
      linarith [h.1]
    · show spotRate 10 - (0.0797 : ℝ) ≤ 0.0001
      linarith [h.2]
  · rw [hget (10 + 1) (by norm_num), abs_le]
    have h := jstep11.1
    refine ⟨?_, ?_⟩
    · show -(0.0001 : ℝ) ≤ spotRate 11 - 0.0827
      linarith [h.1]
    · show spotRate 11 - (0.0827 : ℝ) ≤ 0.0001
      linarith [h.2]
  · rw [hget (10 + 2) (by norm_num), abs_le]
    have h := jstep12.1
    refine ⟨?_, ?_⟩
    · show -(0.0001 : ℝ) ≤ spotRate 12 - 0.0859
      linarith [h.1]
    · show spotRate 12 - (0.0859 : ℝ) ≤ 0.0001
      linarith [h.2]
  · rw [hget (10 + 3) (by norm_num), abs_le]
    have h := jstep13.1
    refine ⟨?_, ?_⟩
    · show -(0.0001 : ℝ) ≤ spotRate 13 - 0.0892
      linarith [h.1]
    · show spotRate 13 - (0.0892 : ℝ) ≤ 0.0001
      linarith [h.2]
  · rw [hget (10 + 4) (by norm_num), abs_le]
    have h := jstep14.1
    refine ⟨?_, ?_⟩
    · show -(0.0001 : ℝ) ≤ spotRate 14 - 0.0925
      linarith [h.1]
    · show spotRate 14 - (0.0925 : ℝ) ≤ 0.0001
      linarith [h.2]
  · rw [hget (10 + 5) (by norm_num), abs_le]
    have h := jstep15.1
    refine ⟨?_, ?_⟩
    · show -(0.0001 : ℝ) ≤ spotRate 15 - 0.0961
      linarith [h.1]
    · show spotRate 15 - (0.0961 : ℝ) ≤ 0.0001
      linarith [h.2]
  · rw [hget (10 + 6) (by norm_num), abs_le]
    have h := jstep16.1
    refine ⟨?_, ?_⟩
    · show -(0.0001 : ℝ) ≤ spotRate 16 - 0.0997
      linarith [h.1]
    · show spotRate 16 - (0.0997 : ℝ) ≤ 0.0001
      linarith [h.2]
  · rw [hget (10 + 7) (by norm_num), abs_le]
    have h := jstep17.1
    refine ⟨?_, ?_⟩
    · show -(0.0001 : ℝ) ≤ spotRate 17 - 0.1036
      linarith [h.1]
    · show spotRate 17 - (0.1036 : ℝ) ≤ 0.0001
      linarith [h.2]
  · rw [hget (10 + 8) (by norm_num), abs_le]
    have h := jstep18.1
    refine ⟨?_, ?_⟩
    · show -(0.0001 : ℝ) ≤ spotRate 18 - 0.1077
      linarith [h.1]
    · show spotRate 18 - (0.1077 : ℝ) ≤ 0.0001
      linarith [h.2]
  · rw [hget (10 + 9) (by norm_num), abs_le]
    have h := jstep19.1
    refine ⟨?_, ?_⟩
    · show -(0.0001 : ℝ) ≤ spotRate 19 - 0.112
      linarith [h.1]
    · show spotRate 19 - (0.112 : ℝ) ≤ 0.0001
      linarith [h.2]

/-- Witness for the Jorion bootstrap theorem at the first table entry. -/
theorem jorion_bootstrap_matches_witness :
    |(jorion_spot 20).getD (10 + 0) 0 - jorion_sol5.getD 0 0| ≤ 0.0001 :=
  jorion_bootstrap_matches 0 (by norm_num)


end FinDS
